import Mathlib

/-!
# nobadfuncs okgo asset: the checker adapter

A shallow embedding of `nobadfuncs/nobadfuncs.go` (and of its vendored copy,
whose `Checker.Check` and `Checker.RunCheckCmd` have the same bodies), together
with the library functions the adapter calls.

Go strings are byte sequences and are modelled as lists of naturals; errors are
modelled by their message.
-/

namespace Nobadfuncs

/-! ## Strings -/

/-- A Go string: a sequence of bytes, not necessarily valid UTF-8. -/
abbrev GoString := List Nat

/-- The replacement character `utf8.RuneError`. -/
def RuneError : Nat := 0xFFFD

/-- The largest Unicode code point, `utf8.MaxRune`. -/
def MaxRune : Nat := 0x10FFFF

/-- Go `utf8.AppendRune`: the UTF-8 encoding of a rune; runes out of range and
surrogates are encoded as `RuneError`. -/
def EncodeRune (r : Nat) : List Nat :=
  if r ≤ 0x7F then [r]
  else if r ≤ 0x7FF then [0xC0 + r / 64, 0x80 + r % 64]
  else if MaxRune < r ∨ (0xD800 ≤ r ∧ r ≤ 0xDFFF) then [0xEF, 0xBF, 0xBD]
  else if r ≤ 0xFFFF then [0xE0 + r / 4096, 0x80 + r / 64 % 64, 0x80 + r % 64]
  else [0xF0 + r / 262144, 0x80 + r / 4096 % 64, 0x80 + r / 64 % 64, 0x80 + r % 64]

/-- The bytes of a string constant of the Go source. -/
def lit (s : String) : GoString :=
  (s.data.map fun c => EncodeRune c.toNat).flatten

/-- Go `utf8.first` with `utf8.acceptRanges`, for a leading byte `≥ 0x80`: the
length of the sequence and the accepted range of the second byte; `none` is the
entry `xx` (invalid leading byte). -/
def first (s0 : Nat) : Option (Nat × Nat × Nat) :=
  if s0 < 0xC2 then none
  else if s0 ≤ 0xDF then some (2, 0x80, 0xBF)
  else if s0 = 0xE0 then some (3, 0xA0, 0xBF)
  else if s0 ≤ 0xEC then some (3, 0x80, 0xBF)
  else if s0 = 0xED then some (3, 0x80, 0x9F)
  else if s0 ≤ 0xEF then some (3, 0x80, 0xBF)
  else if s0 = 0xF0 then some (4, 0x90, 0xBF)
  else if s0 ≤ 0xF3 then some (4, 0x80, 0xBF)
  else if s0 = 0xF4 then some (4, 0x80, 0x8F)
  else none

/-- Go `utf8.DecodeRuneInString`: the first rune of `s` and its width in bytes;
`(RuneError, 0)` for the empty string and `(RuneError, 1)` for an invalid
encoding. Masks and shifts are written as `%` and `*`. -/
def DecodeRuneInString (s : GoString) : Nat × Nat :=
  match s with
  | [] => (RuneError, 0)
  | s0 :: t =>
    if s0 < 0x80 then (s0, 1)
    else
      match first s0 with
      | none => (RuneError, 1)
      | some (sz, lo, hi) =>
        match t with
        | [] => (RuneError, 1)
        | s1 :: t1 =>
          if s1 < lo ∨ hi < s1 then (RuneError, 1)
          else if sz ≤ 2 then (s0 % 32 * 64 + s1 % 64, 2)
          else
            match t1 with
            | [] => (RuneError, 1)
            | s2 :: t2 =>
              if s2 < 0x80 ∨ 0xBF < s2 then (RuneError, 1)
              else if sz ≤ 3 then (s0 % 16 * 4096 + s1 % 64 * 64 + s2 % 64, 3)
              else
                match t2 with
                | [] => (RuneError, 1)
                | s3 :: _ =>
                  if s3 < 0x80 ∨ 0xBF < s3 then (RuneError, 1)
                  else (s0 % 8 * 262144 + s1 % 64 * 4096 + s2 % 64 * 64 + s3 % 64, 4)

/-- Go `utf8.ValidString`, as a loop over the runes of the string. -/
def ValidStringLoop : Nat → GoString → Bool
  | 0, s => s.isEmpty
  | _ + 1, [] => true
  | fuel + 1, b :: rest =>
    if b < 0x80 then ValidStringLoop fuel rest
    else
      let size := (DecodeRuneInString (b :: rest)).2
      if size = 1 then false else ValidStringLoop fuel (rest.drop (size - 1))

/-- Go `utf8.ValidString`. -/
def ValidString (s : GoString) : Bool := ValidStringLoop s.length s

/-- Go's `<=` on strings: bytewise lexicographic order. -/
def strLE : GoString → GoString → Bool
  | [], _ => true
  | _ :: _, [] => false
  | a :: s, b :: t => if a < b then true else if b < a then false else strLE s t

/-! ## Maps -/

/-- A Go `map[string]string`: `none` is the nil map; otherwise the entries, in
the (unspecified) order in which the runtime iterates over them. -/
abbrev GoMap := Option (List (GoString × GoString))

/-- The entries of a map; a nil map has none. -/
def GoMap.entries (m : GoMap) : List (GoString × GoString) :=
  m.getD []

/-- The keys of a map are pairwise distinct. -/
def GoMap.WF (m : GoMap) : Prop :=
  (m.entries.map Prod.fst).Nodup

instance (m : GoMap) : Decidable m.WF := by
  unfold GoMap.WF
  infer_instance

/-- The map index expression `m[k]` with the comma-ok form. -/
def GoMap.get (m : GoMap) (k : GoString) : Option GoString :=
  m.entries.lookup k

/-- The order of two entries of a map in the sorted output: the order of their
keys. -/
def keyLE {α : Type} (a b : GoString × α) : Prop :=
  strLE a.1 b.1 = true

instance {α : Type} : DecidableRel (@keyLE α) := fun a b => by
  unfold keyLE
  infer_instance

/-- The entries ordered by key, as `slices.SortFunc` with `strings.Compare`
leaves them in the map encoder of `encoding/json`. -/
def sortEntries {α : Type} (es : List (GoString × α)) : List (GoString × α) :=
  es.insertionSort keyLE

/-! ## encoding/json: encoding -/

/-- The digit `"0123456789abcdef"[n]`. -/
def hex (n : Nat) : Nat :=
  if n < 10 then 0x30 + n else 0x61 + (n - 10)

/-- Go `htmlSafeSet` of `encoding/json`: the ASCII bytes that need no escaping
in a JSON string embedded in HTML. -/
def htmlSafeSet (b : Nat) : Bool :=
  decide (0x20 ≤ b) && decide (b < 0x80) && !(b = 0x22 || b = 0x26 || b = 0x3C || b = 0x3E || b = 0x5C)

/-- Go `safeSet` of `encoding/json`: the ASCII bytes that need no escaping in a
JSON string. -/
def safeSet (b : Nat) : Bool :=
  decide (0x20 ≤ b) && decide (b < 0x80) && !(b = 0x22 || b = 0x5C)

/-- The escape that `appendString` writes for an ASCII byte that is not safe. -/
def escapeByte (b : Nat) : List Nat :=
  if b = 0x5C ∨ b = 0x22 then [0x5C, b]
  else if b = 0x08 then [0x5C, 0x62]
  else if b = 0x0C then [0x5C, 0x66]
  else if b = 0x0A then [0x5C, 0x6E]
  else if b = 0x0D then [0x5C, 0x72]
  else if b = 0x09 then [0x5C, 0x74]
  else [0x5C, 0x75, 0x30, 0x30, hex (b / 16), hex (b % 16)]

/-- The loop of `appendString` in `encoding/json`: one rune of the source per
iteration; `fuel` bounds the iterations (each one consumes a byte at least). -/
def appendStringLoop (escapeHTML : Bool) : Nat → GoString → List Nat
  | 0, _ => []
  | _ + 1, [] => []
  | fuel + 1, b :: rest =>
    if b < 0x80 then
      if htmlSafeSet b || (!escapeHTML && safeSet b) then
        b :: appendStringLoop escapeHTML fuel rest
      else
        escapeByte b ++ appendStringLoop escapeHTML fuel rest
    else
      let c := (DecodeRuneInString (b :: rest)).1
      let size := (DecodeRuneInString (b :: rest)).2
      if c = RuneError ∧ size = 1 then
        [0x5C, 0x75, 0x66, 0x66, 0x66, 0x64] ++ appendStringLoop escapeHTML fuel rest
      else if c = 0x2028 ∨ c = 0x2029 then
        [0x5C, 0x75, 0x32, 0x30, 0x32, hex (c % 16)] ++
          appendStringLoop escapeHTML fuel (rest.drop (size - 1))
      else
        (b :: rest).take size ++ appendStringLoop escapeHTML fuel (rest.drop (size - 1))

/-- Go `appendString` of `encoding/json`: the JSON string literal for `src`. -/
def appendString (src : GoString) (escapeHTML : Bool) : List Nat :=
  [0x22] ++ appendStringLoop escapeHTML src.length src ++ [0x22]

/-- One member `"key":"value"` of the object the map encoder writes. -/
def encodeMember (escapeHTML : Bool) (kv : GoString × GoString) : List Nat :=
  appendString kv.1 escapeHTML ++ [0x3A] ++ appendString kv.2 escapeHTML

/-- The members of the object the map encoder writes, with a comma between
them. -/
def encodeMembers (escapeHTML : Bool) (es : List (GoString × GoString)) : List Nat :=
  ((es.map (encodeMember escapeHTML)).intersperse [0x2C]).flatten

/-- The text that `mapEncoder.encode` writes for a value of type
`map[string]string`: `null` for the nil map, otherwise the members in key order
between braces, separated by commas. The encoder itself, with the paths on
which it fails, is `typeEncoder`. -/
def mapEncoder (m : GoMap) (escapeHTML : Bool) : List Nat :=
  match m with
  | none => lit "null"
  | some es => [0x7B] ++ encodeMembers escapeHTML (sortEntries es) ++ [0x7D]

/-- The Go types that the encoder of `encoding/json` is followed through:
`bool`, `string`, `json.Number` (a string type), channel and function types,
and the map types over them. -/
inductive GoType where
  /-- The type `bool`. -/
  | Bool
  /-- The type `string`. -/
  | String
  /-- The type `json.Number`, of kind string. -/
  | Number
  /-- A channel type. -/
  | Chan
  /-- A function type. -/
  | Func
  /-- The type `map[key]elem`. -/
  | Map (key elem : GoType)
deriving DecidableEq, Repr

/-- The values of a Go type. A map comes with its address
(`reflect.Value.UnsafePointer`) and is nil or has entries, in the order of
iteration. -/
@[reducible] def Val : GoType → Type
  | .Bool => Bool
  | .String => GoString
  | .Number => GoString
  | .Chan => Unit
  | .Func => Unit
  | .Map key elem => Nat × Option (List (Val key × Val elem))

/-- The errors that the encoder of `encoding/json` raises on the types
followed. -/
inductive MarshalError where
  /-- Go `UnsupportedTypeError`, from `unsupportedTypeEncoder`. -/
  | UnsupportedTypeError (t : GoType)
  /-- Go `UnsupportedValueError` "encountered a cycle via" the type. -/
  | cycle (t : GoType)
  /-- The error "json: invalid number literal" of `stringEncoder`. -/
  | invalidNumber (numStr : GoString)
  /-- The error "json: encoding error for type" of `mapEncoder.encode`, raised
  when `resolveKeyName` fails. -/
  | keyName (t : GoType)
deriving DecidableEq, Repr

/-- The fields of Go `encodeState` that decide whether the encoder fails: the
depth reached and the addresses seen past `startDetectingCyclesAfter`. -/
structure encodeState where
  /-- The field `ptrLevel`. -/
  ptrLevel : Nat
  /-- The field `ptrSeen`. -/
  ptrSeen : List Nat
deriving DecidableEq, Repr

/-- Go `newEncodeState`: depth 0 and no address seen. -/
def newEncodeState : encodeState :=
  { ptrLevel := 0, ptrSeen := [] }

/-- The constant `startDetectingCyclesAfter`. -/
def startDetectingCyclesAfter : Nat := 1000

/-- A decimal digit. -/
def isDigit (c : Nat) : Bool :=
  decide (0x30 ≤ c) && decide (c ≤ 0x39)

/-- The end of `isValidNumber`, after the integer part: an optional fraction,
an optional exponent, and then the end of the string. -/
def numberTail (s : GoString) : Bool :=
  let s1 :=
    match s with
    | 0x2E :: d :: t => if isDigit d then t.dropWhile isDigit else s
    | _ => s
  match s1 with
  | e :: c :: t =>
    if e = 0x65 ∨ e = 0x45 then
      if c = 0x2B ∨ c = 0x2D then
        if t = [] then false else (t.dropWhile isDigit).isEmpty
      else ((c :: t).dropWhile isDigit).isEmpty
    else false
  | _ :: [] => false
  | [] => true

/-- Go `isValidNumber` of `encoding/json`: whether `s` is a JSON number. -/
def isValidNumber (s : GoString) : Bool :=
  match s with
  | [] => false
  | c :: t =>
    match (if c = 0x2D then t else c :: t) with
    | [] => false
    | d :: t1 =>
      if d = 0x30 then numberTail t1
      else if 0x31 ≤ d ∧ d ≤ 0x39 then numberTail (t1.dropWhile isDigit)
      else false

/-- The kinds of key that `newMapEncoder` accepts, among the types followed:
those of kind string. For any other key type the map type is unsupported. -/
def keyKindSupported : GoType → Bool
  | .String => true
  | .Number => true
  | _ => false

/-- Go `resolveKeyName`: the name of a member for a key. A key of kind string
is its own name; no other kind of key gets here. -/
def resolveKeyName : (key : GoType) → Val key → Except Unit GoString
  | .String, s => .ok s
  | .Number, s => .ok s
  | _, _ => .error ()

/-- The function applied to the elements of a list in turn, up to the first
error. -/
def mapErr {α β ε : Type} (f : α → Except ε β) : List α → Except ε (List β)
  | [] => .ok []
  | a :: as =>
    match f a with
    | .error e => .error e
    | .ok b =>
      match mapErr f as with
      | .error e => .error e
      | .ok bs => .ok (b :: bs)

/-- The encoder that `typeEncoder` of `encoding/json` returns for a type,
applied to a state and a value: `boolEncoder`, `stringEncoder` (with its check
of a `json.Number`), `unsupportedTypeEncoder`, and for a map type the encoder
of `newMapEncoder`, which is `unsupportedTypeEncoder` for an unsupported kind
of key and otherwise `mapEncoder.encode`: `null` for a nil map, the cycle
check past `startDetectingCyclesAfter`, the names of the keys, and the
members in the order of their names, each element through the encoder of its
type. The option `quoted` belongs to struct fields and is left out. -/
def typeEncoder : (t : GoType) → Bool → encodeState → Val t → Except MarshalError (List Nat)
  | .Bool, _, _, b => .ok (if b then lit "true" else lit "false")
  | .String, escapeHTML, _, s => .ok (appendString s escapeHTML)
  | .Number, _, _, s =>
    let numStr := if s = [] then lit "0" else s
    if isValidNumber numStr then .ok numStr else .error (.invalidNumber numStr)
  | .Chan, _, _, _ => .error (.UnsupportedTypeError .Chan)
  | .Func, _, _, _ => .error (.UnsupportedTypeError .Func)
  | .Map key elem, escapeHTML, e, v =>
    if keyKindSupported key = false then .error (.UnsupportedTypeError (.Map key elem))
    else
      match v.2 with
      | none => .ok (lit "null")
      | some entries =>
        let ptrLevel := e.ptrLevel + 1
        if startDetectingCyclesAfter < ptrLevel ∧ v.1 ∈ e.ptrSeen then
          .error (.cycle (.Map key elem))
        else
          let e1 : encodeState :=
            { ptrLevel := ptrLevel,
              ptrSeen := if startDetectingCyclesAfter < ptrLevel then v.1 :: e.ptrSeen
                else e.ptrSeen }
          match mapErr (fun kv => (resolveKeyName key kv.1).map fun ks => (ks, kv.2)) entries with
          | .error _ => .error (.keyName (.Map key elem))
          | .ok sv =>
            match mapErr (fun kv => (typeEncoder elem escapeHTML e1 kv.2).map fun b =>
                appendString kv.1 escapeHTML ++ [0x3A] ++ b) (sortEntries sv) with
            | .error err => .error err
            | .ok members => .ok ([0x7B] ++ (members.intersperse [0x2C]).flatten ++ [0x7D])

/-- Go `json.Marshal` of a value of a type: the encoder of the type, with HTML
escaping, from a new state. -/
def MarshalValue (t : GoType) (v : Val t) : Except MarshalError GoString :=
  typeEncoder t true newEncodeState v

/-- Go `json.Marshal` of a value of type `map[string]string`. The address of
the map is taken to be 0; the encoder looks at it only past depth
`startDetectingCyclesAfter`. -/
def Marshal (m : GoMap) : Except MarshalError GoString :=
  MarshalValue (.Map .String .String) (0, m)

/-! ## encoding/json: decoding -/

/-- The value of a hexadecimal digit, as in `getu4`. -/
def unhex (c : Nat) : Option Nat :=
  if 0x30 ≤ c ∧ c ≤ 0x39 then some (c - 0x30)
  else if 0x61 ≤ c ∧ c ≤ 0x66 then some (c - 0x61 + 10)
  else if 0x41 ≤ c ∧ c ≤ 0x46 then some (c - 0x41 + 10)
  else none

/-- Go `getu4` of `encoding/json`: the rune of a `\uXXXX` escape at the head of
`s`; `none` stands for the result `-1`. -/
def getu4 (s : List Nat) : Option Nat :=
  match s with
  | 0x5C :: 0x75 :: a :: b :: c :: d :: _ =>
    match unhex a, unhex b, unhex c, unhex d with
    | some a, some b, some c, some d => some (((a * 16 + b) * 16 + c) * 16 + d)
    | _, _, _, _ => none
  | _ => none

/-- Go `utf16.IsSurrogate`. -/
def IsSurrogate (r : Nat) : Bool :=
  decide (0xD800 ≤ r) && decide (r < 0xE000)

/-- Go `utf16.DecodeRune`, the second rune being absent (`none`) when `getu4`
gave `-1`. -/
def utf16DecodeRune (r1 : Nat) (r2 : Option Nat) : Nat :=
  match r2 with
  | some r2 =>
    if 0xD800 ≤ r1 ∧ r1 < 0xDC00 ∧ 0xDC00 ≤ r2 ∧ r2 < 0xE000 then
      (r1 - 0xD800) * 1024 + (r2 - 0xDC00) + 0x10000
    else RuneError
  | none => RuneError

/-- The byte a two-character escape of a JSON string stands for. -/
def unescape (e : Nat) : Option Nat :=
  if e = 0x22 ∨ e = 0x5C ∨ e = 0x2F then some e
  else if e = 0x62 then some 0x08
  else if e = 0x66 then some 0x0C
  else if e = 0x6E then some 0x0A
  else if e = 0x72 then some 0x0D
  else if e = 0x74 then some 0x09
  else none

/-- Put `p` in front of the bytes decoded so far. -/
def prepend (p : List Nat) (r : Option (GoString × List Nat)) : Option (GoString × List Nat) :=
  r.map fun x => (p ++ x.1, x.2)

/-- The string scanner and `unquoteBytes` of `encoding/json` in one pass: `s`
follows the opening quote; the result is the string the literal stands for and
the input after the closing quote, or `none` for a literal the scanner
rejects. Bytes that are not valid UTF-8 come out as `RuneError`. -/
def unquoteLoop : Nat → List Nat → Option (GoString × List Nat)
  | 0, _ => none
  | _ + 1, [] => none
  | fuel + 1, c :: rest =>
    if c = 0x22 then some ([], rest)
    else if c = 0x5C then
      match rest with
      | [] => none
      | e :: rest1 =>
        if e = 0x75 then
          match getu4 (c :: rest) with
          | none => none
          | some rr =>
            if IsSurrogate rr then
              let dec := utf16DecodeRune rr (getu4 (rest1.drop 4))
              if dec ≠ RuneError then
                prepend (EncodeRune dec) (unquoteLoop fuel (rest1.drop 10))
              else
                prepend (EncodeRune RuneError) (unquoteLoop fuel (rest1.drop 4))
            else
              prepend (EncodeRune rr) (unquoteLoop fuel (rest1.drop 4))
        else
          match unescape e with
          | none => none
          | some b => prepend [b] (unquoteLoop fuel rest1)
    else if c < 0x20 then none
    else if c < 0x80 then prepend [c] (unquoteLoop fuel rest)
    else
      let rr := (DecodeRuneInString (c :: rest)).1
      let size := (DecodeRuneInString (c :: rest)).2
      prepend (EncodeRune rr) (unquoteLoop fuel (rest.drop (size - 1)))

/-- A JSON string literal at the head of `s`. -/
def decodeString (s : List Nat) : Option (GoString × List Nat) :=
  match s with
  | 0x22 :: rest => unquoteLoop rest.length rest
  | _ => none

/-- A map element of type string at the head of `s`: a string literal, or
`null`, which leaves the zero value. -/
def decodeElem (s : List Nat) : Option (GoString × List Nat) :=
  match s with
  | 0x6E :: 0x75 :: 0x6C :: 0x6C :: rest => some ([], rest)
  | _ => decodeString s

/-- Go `isSpace` of `encoding/json`. -/
def isSpace (c : Nat) : Bool :=
  c = 0x20 || c = 0x09 || c = 0x0D || c = 0x0A

/-- Skip the white space at the head of the input. -/
def skipSpace : List Nat → List Nat
  | [] => []
  | c :: rest => if isSpace c then skipSpace rest else c :: rest

/-- Go `reflect.Value.SetMapIndex`: `m[k] = v`. -/
def SetMapIndex (m : List (GoString × GoString)) (k v : GoString) : List (GoString × GoString) :=
  (m.filter fun e => e.1 ≠ k) ++ [(k, v)]

/-- The members of a JSON object, `s` being at the first key: each member is
stored in the map; the result is the map and the input after the closing
brace. -/
def decodeMembers : Nat → List Nat → List (GoString × GoString) →
    Option (List (GoString × GoString) × List Nat)
  | 0, _, _ => none
  | fuel + 1, s, acc =>
    match decodeString s with
    | none => none
    | some (k, s1) =>
      match skipSpace s1 with
      | 0x3A :: s2 =>
        match decodeElem (skipSpace s2) with
        | none => none
        | some (v, s3) =>
          match skipSpace s3 with
          | 0x2C :: s4 => decodeMembers fuel (skipSpace s4) (SetMapIndex acc k v)
          | 0x7D :: s4 => some (SetMapIndex acc k v, s4)
          | _ => none
      | _ => none

/-- Go `json.Unmarshal` of `data` into a nil variable of type
`map[string]string`: the JSON text is `null`, which leaves the map nil, or an
object whose values are strings or `null`; `none` stands for an error (a syntax
error, or a value that is no string). -/
def Unmarshal (data : List Nat) : Option GoMap :=
  match skipSpace data with
  | 0x6E :: 0x75 :: 0x6C :: 0x6C :: rest => if skipSpace rest = [] then some none else none
  | 0x7B :: rest =>
    match skipSpace rest with
    | 0x7D :: rest1 => if skipSpace rest1 = [] then some (some []) else none
    | s =>
      match decodeMembers s.length s [] with
      | none => none
      | some (m, rest1) => if skipSpace rest1 = [] then some (some m) else none
  | _ => none

/-- The loop of `coerceUTF8`: one rune of the string per iteration. -/
def coerceLoop : Nat → GoString → GoString
  | 0, _ => []
  | _ + 1, [] => []
  | fuel + 1, b :: rest =>
    if b < 0x80 then b :: coerceLoop fuel rest
    else
      let c := (DecodeRuneInString (b :: rest)).1
      let size := (DecodeRuneInString (b :: rest)).2
      if c = RuneError ∧ size = 1 then [0xEF, 0xBF, 0xBD] ++ coerceLoop fuel rest
      else (b :: rest).take size ++ coerceLoop fuel (rest.drop (size - 1))

/-- The string with every byte that is not part of a valid UTF-8 sequence
replaced by the encoding of `RuneError`: the string that the JSON literal
written by `appendString` stands for. -/
def coerceUTF8 (s : GoString) : GoString :=
  coerceLoop s.length s

/-- The entries with their keys and values as `coerceUTF8` leaves them. -/
def coercePairs (es : List (GoString × GoString)) : List (GoString × GoString) :=
  es.map fun e => (coerceUTF8 e.1, coerceUTF8 e.2)

/-- The map after the assignments `m[k] = v` for the entries `(k, v)` of `es`,
in their order. -/
def setAll (m es : List (GoString × GoString)) : List (GoString × GoString) :=
  es.foldl (fun m x => SetMapIndex m x.1 x.2) m

/-- The table that the JSON text written for the table `t` stands for: the
entries in key order, coerced to valid UTF-8, stored one after the other. -/
def decodedTable (t : GoMap) : GoMap :=
  t.map fun es => setAll [] (coercePairs (sortEntries es))

/-! ## strconv.Quote and errors.Wrapf -/

/-- Go `strconv.IsPrint`; `table` stands for the tables of printable runes
above `0xFF`, which the function searches. -/
def IsPrint (table : Nat → Bool) (r : Nat) : Bool :=
  if r ≤ 0xFF then
    if 0x20 ≤ r ∧ r ≤ 0x7E then true
    else if 0xA1 ≤ r ∧ r ≤ 0xFF then r ≠ 0xAD
    else false
  else table r

/-- Go `appendEscapedRune` of `strconv` for the quote `"`, neither ASCII-only
nor graphic-only. -/
def appendEscapedRune (table : Nat → Bool) (r : Nat) : List Nat :=
  if r = 0x22 ∨ r = 0x5C then [0x5C, r]
  else if IsPrint table r then EncodeRune r
  else if r = 0x07 then [0x5C, 0x61]
  else if r = 0x08 then [0x5C, 0x62]
  else if r = 0x0C then [0x5C, 0x66]
  else if r = 0x0A then [0x5C, 0x6E]
  else if r = 0x0D then [0x5C, 0x72]
  else if r = 0x09 then [0x5C, 0x74]
  else if r = 0x0B then [0x5C, 0x76]
  else if r < 0x20 ∨ r = 0x7F then [0x5C, 0x78, hex (r / 16), hex (r % 16)]
  else if MaxRune < r ∨ (0xD800 ≤ r ∧ r ≤ 0xDFFF) then [0x5C, 0x75, 0x66, 0x66, 0x66, 0x64]
  else if r < 0x10000 then
    [0x5C, 0x75, hex (r / 4096 % 16), hex (r / 256 % 16), hex (r / 16 % 16), hex (r % 16)]
  else
    [0x5C, 0x55, hex (r / 268435456 % 16), hex (r / 16777216 % 16), hex (r / 1048576 % 16),
      hex (r / 65536 % 16), hex (r / 4096 % 16), hex (r / 256 % 16), hex (r / 16 % 16),
      hex (r % 16)]

/-- The loop of `appendQuotedWith` in `strconv`: one rune of `s` per iteration. -/
def quoteLoop (table : Nat → Bool) : Nat → GoString → List Nat
  | 0, _ => []
  | _ + 1, [] => []
  | fuel + 1, b :: rest =>
    let r := if b < 0x80 then b else (DecodeRuneInString (b :: rest)).1
    let width := if b < 0x80 then 1 else (DecodeRuneInString (b :: rest)).2
    if width = 1 ∧ r = RuneError then
      [0x5C, 0x78, hex (b / 16), hex (b % 16)] ++ quoteLoop table fuel rest
    else
      appendEscapedRune table r ++ quoteLoop table fuel (rest.drop (width - 1))

/-- Go `strconv.Quote`, which is what the verb `%q` of `fmt` prints for a string. -/
def Quote (table : Nat → Bool) (s : GoString) : GoString :=
  [0x22] ++ quoteLoop table s.length s ++ [0x22]

/-- A byte that `strconv.Quote` leaves as it is: printable ASCII other than the
quote and the backslash. -/
def plainByte (b : Nat) : Prop :=
  0x20 ≤ b ∧ b < 0x7F ∧ b ≠ 0x22 ∧ b ≠ 0x5C

instance (b : Nat) : Decidable (plainByte b) := by
  unfold plainByte
  infer_instance

/-- The message of the error `errors.Wrapf err format args` of
`github.com/pkg/errors`, `msg` being the formatted text and `err` the message
of the cause. -/
def Wrapf (err : GoString) (msg : GoString) : GoString :=
  msg ++ lit ": " ++ err

/-! ## Diagnostics, paths and the matcher -/

/-- Modelled from the spec: the issue type `okgo.Issue`, which is not part of the
sources: "a location + message pair". A line of output that is not a
diagnostic is an issue with only `Content`. -/
structure Issue where
  /-- Path of the file. -/
  Path : GoString
  /-- Line, from 1; 0 when absent. -/
  Line : Nat
  /-- Column, from 1; 0 when absent. -/
  Col : Nat
  /-- The message. -/
  Content : GoString
deriving DecidableEq, Repr

/-- Modelled from the spec: the fields of a line or a path, the text between the
occurrences of the separator byte (the scanner and `okgo` are not part of the
sources). -/
def splitOn (sep : Nat) : GoString → List GoString
  | [] => [[]]
  | c :: rest =>
    if c = sep then [] :: splitOn sep rest
    else
      match splitOn sep rest with
      | [] => [[c]]
      | h :: t => (c :: h) :: t

/-- Modelled from the spec: the fields joined again with the separator byte. -/
def joinWith (sep : Nat) (fields : List GoString) : GoString :=
  (fields.intersperse [sep]).flatten

/-- Modelled from the spec: the segments of a path with the empty and `.`
segments dropped and each `..` resolved against the segment before it; `acc`
holds the segments kept so far, last first. Above the root `..` is dropped, and
kept at the head of a path that is not rooted. -/
def cleanSegs (rooted : Bool) : List GoString → List GoString → List GoString
  | acc, [] => acc.reverse
  | acc, seg :: rest =>
    if seg = [] ∨ seg = lit "." then cleanSegs rooted acc rest
    else if seg = lit ".." then
      match acc with
      | [] => if rooted then cleanSegs rooted [] rest else cleanSegs rooted [seg] rest
      | top :: acc1 =>
        if top = lit ".." then cleanSegs rooted (seg :: acc) rest
        else cleanSegs rooted acc1 rest
    else cleanSegs rooted (seg :: acc) rest

/-- Modelled from the spec: a path segment that names a file or a directory:
not empty, not `.`, not `..`. -/
def normalSeg (seg : GoString) : Prop :=
  seg ≠ [] ∧ seg ≠ lit "." ∧ seg ≠ lit ".."

/-- Modelled from the spec: the segments of the relative path from directory
`base` to `targ`, both given by their segments from the root: the common
leading segments are dropped and every remaining segment of `base` is left
through `..`. -/
def relSegs : List GoString → List GoString → List GoString
  | [], targ => targ
  | _ :: base, [] => List.replicate (base.length + 1) (lit "..")
  | b :: base, t :: targ =>
    if b = t then relSegs base targ
    else List.replicate (base.length + 1) (lit "..") ++ t :: targ

/-- Modelled from the spec: the segments from the root of the absolute path `p`. -/
def absSegs (p : GoString) : List GoString :=
  cleanSegs true [] (splitOn 0x2F p)

/-- Modelled from the spec: the segments from the root of the file a checker
running in directory `wd` names `path`: an absolute path stands for itself, any
other path is taken from `wd`. -/
def fileSegs (wd path : GoString) : List GoString :=
  if path.head? = some 0x2F then absSegs path
  else cleanSegs true (absSegs wd).reverse (splitOn 0x2F path)

/-- Modelled from the spec: a path given by its segments, `.` when there is none. -/
def renderSegs (segs : List GoString) : GoString :=
  match segs with
  | [] => lit "."
  | _ :: _ => joinWith 0x2F segs

/-- Modelled from the spec: the path of a diagnostic "expressed relative to the
invocation's working directory", with `..` segments for a file in an ancestor
directory. -/
def relativeTo (wd path : GoString) : GoString :=
  renderSegs (relSegs (absSegs wd) (fileSegs wd path))

/-- Modelled from the spec: the number a non-empty sequence of decimal digits
stands for. -/
def parseDecimal (s : GoString) : Option Nat :=
  if s = [] then none
  else
    s.foldl
      (fun acc c => acc.bind fun n => if 0x30 ≤ c ∧ c ≤ 0x39 then some (n * 10 + (c - 0x30)) else none)
      (some 0)

/-- Modelled from the spec: the loop of `decimal`: the digits of `n` put in
front of `acc`. -/
def decimalLoop : Nat → Nat → List Nat → List Nat
  | 0, _, acc => acc
  | fuel + 1, n, acc =>
    if n < 10 then (0x30 + n) :: acc
    else decimalLoop fuel (n / 10) ((0x30 + n % 10) :: acc)

/-- Modelled from the spec: a line or column number in decimal. -/
def decimal (n : Nat) : GoString :=
  decimalLoop (n + 1) n []

/-- Modelled from the spec: a line of the checker output in "the documented
format" `<path>:<line>:<column>: <message>`, split into its four parts; `none`
for a line that does not match the format. -/
def parseLine (line : GoString) : Option (GoString × Nat × Nat × GoString) :=
  match splitOn 0x3A line with
  | path :: l :: c :: m :: ms =>
    match parseDecimal l, parseDecimal c, joinWith 0x3A (m :: ms) with
    | some l, some c, 0x20 :: msg =>
      if path = [] ∨ msg = [] then none else some (path, l, c, msg)
    | _, _, _ => none
  | _ => none

/-- Modelled from the spec: `okgo.NewIssueFromLine`, which is not part of the
sources. A line in the documented format becomes a location and a message, the
path expressed relative to `wd`; any other line is raw output, an issue with
only content. -/
def NewIssueFromLine (line wd : GoString) : Issue :=
  match parseLine line with
  | some (path, l, c, msg) => { Path := relativeTo wd path, Line := l, Col := c, Content := msg }
  | none => { Path := [], Line := 0, Col := 0, Content := line }

/-- Modelled from the spec: the line an issue is printed as: the documented
format for a diagnostic, the content alone for raw output. -/
def issueLine (i : Issue) : GoString :=
  if i.Path = [] then i.Content
  else i.Path ++ [0x3A] ++ decimal i.Line ++ [0x3A] ++ decimal i.Col ++ [0x3A, 0x20] ++ i.Content

/-- Modelled from the spec: the tuple the scanner produces for a direct call
expression: the position of the callee token and the canonical signature
(section 4.2). The scanner is not part of the sources. -/
structure CallSite where
  /-- Path of the file. -/
  Path : GoString
  /-- Line of the callee token. -/
  Line : Nat
  /-- Column of the callee token. -/
  Col : Nat
  /-- Canonical signature of the callee. -/
  Signature : GoString
deriving DecidableEq, Repr

/-- Modelled from the spec: the diagnostic of section 3. -/
structure Diagnostic where
  /-- Path of the file. -/
  Path : GoString
  /-- Line, from 1. -/
  Line : Nat
  /-- Column, from 1. -/
  Column : Nat
  /-- The message of the table. -/
  Message : GoString
deriving DecidableEq, Repr

/-- Modelled from the spec: the matcher at one call site (section 4.3, the
matcher is not part of the sources): "look up Signature in the SignatureTable.
On a hit, emit a Diagnostic with the table's Message." -/
def matchSite (table : GoMap) (site : CallSite) : Option Diagnostic :=
  match table.get site.Signature with
  | some msg => some { Path := site.Path, Line := site.Line, Column := site.Col, Message := msg }
  | none => none

/-- Modelled from the spec: the matcher over the tuples of the scanner, in scan
order (section 4.3). -/
def Matcher (table : GoMap) (sites : List CallSite) : List Diagnostic :=
  sites.filterMap (matchSite table)

/-- Modelled from the spec: the output line of a diagnostic,
`<relative-path>:<line>:<column>: <message>` (section 4.4). -/
def formatDiagnostic (d : Diagnostic) : GoString :=
  d.Path ++ [0x3A] ++ decimal d.Line ++ [0x3A] ++ decimal d.Column ++ [0x3A, 0x20] ++ d.Message

/-! ## The configuration upgrader -/

/-- Modelled from the spec: a configuration document with its version
discriminant (sections 3 and 9); the upgrader is not part of the sources. A
legacy document carries `args` and `filters`; a document in the current schema
is kept as its text. -/
inductive ConfigDocument (Filters : Type) where
  /-- A document of the legacy schema. -/
  | legacy (args : List GoString) (filters : Filters)
  /-- A document of the current schema, as its bytes. -/
  | current (text : GoString)

/-- Modelled from the spec: the failures of the upgrade (section 7). -/
inductive UpgradeError where
  /-- The first element of `args` is not `--config`. -/
  | unsupportedArgs
  /-- There is not exactly one element after `--config`. -/
  | wrongArgsLength
  /-- The element after `--config` is no JSON map of strings. -/
  | malformedJSON
deriving DecidableEq, Repr

/-- Modelled from the spec: the text of an upgrade error, as the integration
tests expect it; the decode error comes with its context and is followed by the
cause. -/
def UpgradeError.message : UpgradeError → GoString
  | .unsupportedArgs =>
    lit "nobadfuncs-asset only supports legacy configuration if the first element in \"args\" is \"--config\""
  | .wrongArgsLength =>
    lit "nobadfuncs-asset only supports legacy configuration if \"args\" has exactly one element after \"--config\""
  | .malformedJSON =>
    lit "failed to unmarshal second element of \"args\" in nobadfuncs-asset legacy configuration as JSON map"

/-- Modelled from the spec: rules 2 and 3 of section 4.5 on a non-empty `args`:
the table it configures, or the failure. -/
def upgradeArgs (first : GoString) (rest : List GoString) : Except UpgradeError GoMap :=
  if first ≠ lit "--config" then .error .unsupportedArgs
  else
    match rest with
    | [json] =>
      match Unmarshal json with
      | some table => .ok table
      | none => .error .malformedJSON
    | _ => .error .wrongArgsLength

/-- Modelled from the spec: the notice of a successful upgrade. -/
def upgradeNotice : GoString := lit "Upgraded configuration for check-plugin.yml"

/-- Modelled from the spec: the upgrader of section 4.5: the document in the
current schema with the notice, if there is one, or the failure. `render`
writes a document of the current schema from its table and the migrated
filters. -/
def upgrade {Filters : Type} (render : GoMap → Filters → GoString) (d : ConfigDocument Filters) :
    Except UpgradeError (ConfigDocument Filters × Option GoString) :=
  match d with
  | .current text => .ok (.current text, none)
  | .legacy [] filters => .ok (.current (render none filters), some upgradeNotice)
  | .legacy (first :: rest) filters =>
    match upgradeArgs first rest with
    | .error e => .error e
    | .ok table => .ok (.current (render table filters), some upgradeNotice)

/-- Modelled from the spec: the upgrade applied to a configuration file: the
file afterwards, with the notice or the failure; a failure writes nothing
(section 7). -/
def upgradeFile {Filters : Type} (render : GoMap → Filters → GoString) (d : ConfigDocument Filters) :
    ConfigDocument Filters × Except UpgradeError (Option GoString) :=
  match upgrade render d with
  | .error e => (d, .error e)
  | .ok (d1, notice) => (d1, .ok notice)

/-! ## The checker -/

/-- The constant `TypeName`. -/
def TypeName : GoString := lit "nobadfuncs"

/-- The constant `Priority`. -/
def Priority : Nat := 0

/-- The type `nobadfuncsCheck` (`Checker` in the vendored copy). -/
structure nobadfuncsCheck where
  /-- The signature table. -/
  BadFuncs : GoMap
deriving DecidableEq, Repr

/-- The type `nobadfuncsCheckCfg`: the decoded YAML configuration. -/
structure nobadfuncsCheckCfg where
  /-- The field tagged `bad-funcs`. -/
  BadFuncs : GoMap
deriving DecidableEq, Repr

/-- What the functions of package `checker` depend on outside the program. -/
structure Env (Cmd : Type) where
  /-- Result of `checker.AmalgomatedCheckCmd name args stdout`: the command, or
  `none` for a nil command, and the working directory. -/
  AmalgomatedCheckCmd : GoString → List GoString → Option Cmd × GoString
  /-- The lines a command prints when `checker.RunCommandAndStreamOutput` runs it. -/
  output : Cmd → List GoString

/-- The calls a method of the checker makes to packages `okgo` and `checker`,
with their arguments. -/
inductive Call (Cmd : Type) where
  /-- Call of `okgo.WriteErrorAsIssue err stdout`. -/
  | WriteErrorAsIssue (err : MarshalError)
  /-- Call of `checker.AmalgomatedCheckCmd name args stdout`. -/
  | AmalgomatedCheckCmd (name : GoString) (args : List GoString)
  /-- Call of `checker.RunCommandAndStreamOutput cmd lineParser stdout`; `issues`
  are the values of `lineParser` at the lines the command prints. -/
  | RunCommandAndStreamOutput (cmd : Cmd) (issues : List Issue)
  /-- Call of `checker.AmalgomatedRunRawCheck name args stdout`. -/
  | AmalgomatedRunRawCheck (name : GoString) (args : List GoString)

/-- The method `nobadfuncsCheck.Check` (`Checker.Check` in the vendored copy).
`newIssueFromLine` is `okgo.NewIssueFromLine`; the result is the sequence of
calls the method makes. The parameter `pkgDir` is not used by the method. -/
def Check {Cmd : Type} (env : Env Cmd) (newIssueFromLine : GoString → GoString → Issue)
    (c : nobadfuncsCheck) (pkgPaths : List GoString) (_pkgDir : GoString) : List (Call Cmd) :=
  match Marshal c.BadFuncs with
  | .error err => [Call.WriteErrorAsIssue err]
  | .ok cfgJSON =>
    let args := [lit "--config-json", cfgJSON] ++ pkgPaths
    match env.AmalgomatedCheckCmd TypeName args with
    | (none, _) => [Call.AmalgomatedCheckCmd TypeName args]
    | (some cmd, wd) =>
      [Call.AmalgomatedCheckCmd TypeName args,
       Call.RunCommandAndStreamOutput cmd ((env.output cmd).map fun line => newIssueFromLine line wd)]

/-- The method `nobadfuncsCheck.RunCheckCmd` (`Checker.RunCheckCmd` in the
vendored copy). -/
def RunCheckCmd {Cmd : Type} (_c : nobadfuncsCheck) (args : List GoString) : List (Call Cmd) :=
  [Call.AmalgomatedRunRawCheck TypeName args]

/-- The function `Creator` hands to `checker.NewCreator`: the factory that
builds the checker from its YAML configuration. `yamlUnmarshal` is
`yaml.Unmarshal` at type `nobadfuncsCheckCfg`; `table` is the table of
`strconv.IsPrint`. -/
def Creator (yamlUnmarshal : GoString → Except GoString nobadfuncsCheckCfg) (table : Nat → Bool)
    (cfgYML : GoString) : Except GoString nobadfuncsCheck :=
  match yamlUnmarshal cfgYML with
  | .error err =>
    .error (Wrapf err (lit "failed to unmarshal configuration YAML " ++ Quote table cfgYML))
  | .ok cfg => .ok { BadFuncs := cfg.BadFuncs }

/-- The argument vectors handed to `checker.AmalgomatedCheckCmd` in a sequence
of calls, each with the name of the check. -/
def checkCmdArgs {Cmd : Type} : List (Call Cmd) → List (GoString × List GoString)
  | [] => []
  | Call.AmalgomatedCheckCmd name args :: rest => (name, args) :: checkCmdArgs rest
  | _ :: rest => checkCmdArgs rest

/-- The errors written with `okgo.WriteErrorAsIssue` in a sequence of calls. -/
def writtenErrors {Cmd : Type} : List (Call Cmd) → List MarshalError
  | [] => []
  | Call.WriteErrorAsIssue err :: rest => err :: writtenErrors rest
  | _ :: rest => writtenErrors rest

/-- The issues reported through `checker.RunCommandAndStreamOutput` in a
sequence of calls. -/
def reportedIssues {Cmd : Type} : List (Call Cmd) → List Issue
  | [] => []
  | Call.RunCommandAndStreamOutput _ issues :: rest => issues ++ reportedIssues rest
  | _ :: rest => reportedIssues rest

/-! ## Sample inputs -/

/-- An environment in which no command can be built. -/
def noCmdEnv : Env Unit where
  AmalgomatedCheckCmd := fun _ _ => (none, [])
  output := fun _ => []

/-- An environment in which the check command runs in directory `wd` and
prints `lines`. -/
def fixedEnv (wd : GoString) (lines : List GoString) : Env Unit where
  AmalgomatedCheckCmd := fun _ _ => (some (), wd)
  output := fun _ => lines

/-- A decoder that rejects the document `bad-funcs: 1`, as `yaml.Unmarshal`
does at type `nobadfuncsCheckCfg` (an integer is no map), and accepts every
other document with no table. -/
def rejectInt (cfgYML : GoString) : Except GoString nobadfuncsCheckCfg :=
  if cfgYML = lit "bad-funcs: 1\n" then
    .error (lit "yaml: unmarshal errors:\n  line 1: cannot unmarshal !!int `1` into map[string]string")
  else .ok { BadFuncs := none }

/-! ## Theorems: the upgrader and the matcher -/

/-- C7: a legacy configuration whose non-empty `args` does not start with
`--config` fails with the error on the first element; one that starts with
`--config` but has not exactly two elements fails with the error on the number
of elements; in both cases the file is left as it was. -/
theorem upgrade_args_errors {Filters : Type} (render : GoMap → Filters → GoString)
    (first : GoString) (rest : List GoString) (filters : Filters) :
    (first ≠ lit "--config" →
      upgrade render (.legacy (first :: rest) filters) = .error .unsupportedArgs ∧
      UpgradeError.unsupportedArgs.message =
        lit "nobadfuncs-asset only supports legacy configuration if the first element in \"args\" is \"--config\"" ∧
      (upgradeFile render (.legacy (first :: rest) filters)).1 = .legacy (first :: rest) filters) ∧
    (first = lit "--config" → (first :: rest).length ≠ 2 →
      upgrade render (.legacy (first :: rest) filters) = .error .wrongArgsLength ∧
      UpgradeError.wrongArgsLength.message =
        lit "nobadfuncs-asset only supports legacy configuration if \"args\" has exactly one element after \"--config\"" ∧
      (upgradeFile render (.legacy (first :: rest) filters)).1 = .legacy (first :: rest) filters) := by
  constructor
  · intro h
    have h1 : upgrade render (.legacy (first :: rest) filters) = .error .unsupportedArgs := by
      simp [upgrade, upgradeArgs, h]
    refine ⟨h1, rfl, ?_⟩
    simp [upgradeFile, h1]
  · intro h hlen
    have h1 : upgrade render (.legacy (first :: rest) filters) = .error .wrongArgsLength := by
      cases rest with
      | nil => simp [upgrade, upgradeArgs, h]
      | cons a rest1 =>
        cases rest1 with
        | nil => simp at hlen
        | cons b rest2 => simp [upgrade, upgradeArgs, h]
    refine ⟨h1, rfl, ?_⟩
    simp [upgradeFile, h1]

/-- Witness of C7 at `args: ["-help"]` and at `args: ["--config", "a", "b"]`. -/
theorem upgrade_args_errors_witness :
    (upgrade (fun _ _ => []) (.legacy [lit "-help"] ()) = .error .unsupportedArgs ∧
      (upgradeFile (fun _ _ => []) (.legacy [lit "-help"] ())).1 = .legacy [lit "-help"] ()) ∧
    (upgrade (fun _ _ => []) (.legacy [lit "--config", lit "a", lit "b"] ()) =
        .error .wrongArgsLength ∧
      (upgradeFile (fun _ _ => []) (.legacy [lit "--config", lit "a", lit "b"] ())).1 =
        .legacy [lit "--config", lit "a", lit "b"] ()) := by
  have h1 := (upgrade_args_errors (fun _ _ => []) (lit "-help") [] ()).1 (by decide)
  have h2 := (upgrade_args_errors (fun _ _ => []) (lit "--config") [lit "a", lit "b"] ()).2 rfl
    (by decide)
  exact ⟨⟨h1.1, h1.2.2⟩, ⟨h2.1, h2.2.2⟩⟩

/-- C8: a document of the current schema comes out of the upgrade as it went
in, byte for byte, with no notice, so that upgrading the result again changes
nothing. -/
theorem upgrade_current {Filters : Type} (render : GoMap → Filters → GoString) (text : GoString) :
    upgrade render (.current text) = .ok (.current text, none) ∧
    upgradeFile render (.current text) = (.current text, .ok none) ∧
    ((upgrade render (.current text)).bind fun r => upgrade render r.1) =
      upgrade render (.current text) :=
  ⟨rfl, rfl, rfl⟩

/-- C2: the matcher emits a diagnostic at a call site exactly when the
signature of the site is a key of the table, the diagnostic has the position
of the site and the message of that key, and the diagnostics of a scan are
those of its sites. -/
theorem matcher_exact (table : GoMap) (sites : List CallSite) :
    (∀ site, (∃ d, matchSite table site = some d) ↔
      site.Signature ∈ table.entries.map Prod.fst) ∧
    (∀ site, site.Signature ∉ table.entries.map Prod.fst → matchSite table site = none) ∧
    (∀ site d, matchSite table site = some d →
      (site.Signature, d.Message) ∈ table.entries ∧
      table.get site.Signature = some d.Message ∧
      d.Path = site.Path ∧ d.Line = site.Line ∧ d.Column = site.Col) ∧
    (∀ d, d ∈ Matcher table sites ↔ ∃ site ∈ sites, matchSite table site = some d) := by
  have key : ∀ k : GoString, (∃ m, table.get k = some m) ↔ k ∈ table.entries.map Prod.fst := by
    intro k
    unfold GoMap.get
    generalize table.entries = es
    induction es with
    | nil => simp
    | cons e es ih =>
      obtain ⟨k1, v1⟩ := e
      by_cases hk : k = k1
      · subst hk
        simp [List.lookup]
      · have hb : (k == k1) = false := by simpa using hk
        simp only [List.lookup, hb, List.map_cons, List.mem_cons, hk, false_or]
        exact ih
  have mem : ∀ (k m : GoString), table.get k = some m → (k, m) ∈ table.entries := by
    intro k m
    unfold GoMap.get
    generalize table.entries = es
    induction es with
    | nil => simp
    | cons e es ih =>
      obtain ⟨k1, v1⟩ := e
      by_cases hk : k = k1
      · subst hk
        simp only [List.lookup, beq_self_eq_true, Option.some.injEq, List.mem_cons, Prod.mk.injEq,
          true_and]
        exact fun h => Or.inl h.symm
      · have hb : (k == k1) = false := by simpa using hk
        simp only [List.lookup, hb, List.mem_cons, Prod.mk.injEq, hk, false_and, false_or]
        exact ih
  refine ⟨?_, ?_, ?_, ?_⟩
  · intro site
    rw [← key]
    unfold matchSite
    cases h : table.get site.Signature <;> simp
  · intro site hs
    have hn : table.get site.Signature = none := by
      cases h : table.get site.Signature with
      | none => rfl
      | some m => exact absurd ((key _).1 ⟨m, h⟩) hs
    simp [matchSite, hn]
  · intro site d hd
    unfold matchSite at hd
    cases h : table.get site.Signature with
    | none => simp [h] at hd
    | some m =>
      simp only [h, Option.some.injEq] at hd
      subst hd
      exact ⟨mem _ _ h, rfl, rfl, rfl, rfl⟩
  · intro d
    simp [Matcher, List.mem_filterMap]

/-- Witness of C2: the table and the call site of the integration test give the
single line of its expected output, and a site whose signature differs from the
key gives none. -/
theorem matcher_exact_witness :
    (Matcher (some [(lit "func os.Exit(int)", lit "do not call os.Exit directly")])
      [⟨lit "foo.go", 6, 5, lit "func os.Exit(int)"⟩]).map formatDiagnostic =
      [lit "foo.go:6:5: do not call os.Exit directly"] ∧
    matchSite (some [(lit "func os.Exit(int)", lit "do not call os.Exit directly")])
      ⟨lit "foo.go", 6, 5, lit "func os.Exit(int64)"⟩ = none :=
  ⟨by decide,
   (matcher_exact (some [(lit "func os.Exit(int)", lit "do not call os.Exit directly")]) []).2.1
     ⟨lit "foo.go", 6, 5, lit "func os.Exit(int64)"⟩ (by decide)⟩

/-! ## Theorems: the encoder at type `map[string]string` -/

theorem mapErr_ok {α β ε : Type} (f : α → Except ε β) (g : α → β) (h : ∀ a, f a = .ok (g a))
    (l : List α) : mapErr f l = .ok (l.map g) := by
  induction l with
  | nil => rfl
  | cons a l ih => simp [mapErr, h, ih]

theorem typeEncoder_string_map (escapeHTML : Bool) (e : encodeState) (p : Nat) (m : GoMap)
    (he : e.ptrLevel < startDetectingCyclesAfter) :
    typeEncoder (.Map .String .String) escapeHTML e (p, m) = .ok (mapEncoder m escapeHTML) := by
  cases m with
  | none => simp [typeEncoder, keyKindSupported, mapEncoder]
  | some es =>
    have hlevel : ¬ (startDetectingCyclesAfter < e.ptrLevel + 1 ∧ p ∈ e.ptrSeen) := by
      intro h
      omega
    have hkeys : mapErr (fun kv : GoString × GoString =>
        (resolveKeyName .String kv.1).map fun ks => (ks, kv.2)) es = .ok es :=
      (mapErr_ok _ id (fun _ => rfl) es).trans (by simp)
    have hmembers : mapErr (fun kv : GoString × GoString =>
        Except.map (fun b => appendString kv.1 escapeHTML ++ [0x3A] ++ b)
          (Except.ok (appendString kv.2 escapeHTML) : Except MarshalError (List Nat)))
        (sortEntries es) =
        .ok ((sortEntries es).map (encodeMember escapeHTML)) :=
      mapErr_ok _ _ (fun _ => rfl) _
    simp only [typeEncoder, keyKindSupported, hlevel, if_false, hkeys, mapEncoder, encodeMembers]
    rw [hmembers]
    simp

theorem Marshal_eq (m : GoMap) : Marshal m = .ok (mapEncoder m true) :=
  typeEncoder_string_map true newEncodeState 0 m (by decide)

/-! ## Theorems: the calls of the checker -/

theorem checkCmdArgs_Check {Cmd : Type} (env : Env Cmd) (parse : GoString → GoString → Issue)
    (c : nobadfuncsCheck) (pkgPaths : List GoString) (pkgDir : GoString) :
    checkCmdArgs (Check env parse c pkgPaths pkgDir) =
      [(lit "nobadfuncs", lit "--config-json" :: mapEncoder c.BadFuncs true :: pkgPaths)] := by
  simp only [Check, Marshal_eq]
  rcases h : env.AmalgomatedCheckCmd TypeName
    ([lit "--config-json", mapEncoder c.BadFuncs true] ++ pkgPaths) with ⟨cmd, wd⟩
  cases cmd <;> simp [checkCmdArgs, TypeName]

/-- C1: `Check` hands `checker.AmalgomatedCheckCmd` the name `nobadfuncs` and
the arguments `--config-json`, the JSON encoding of the table, and then the
package paths as they were given; the vector has two elements more than
`pkgPaths`, and this is the only such call. -/
theorem Check_args {Cmd : Type} (env : Env Cmd) (parse : GoString → GoString → Issue)
    (c : nobadfuncsCheck) (pkgPaths : List GoString) (pkgDir : GoString) :
    ∃ J, Marshal c.BadFuncs = .ok J ∧
      checkCmdArgs (Check env parse c pkgPaths pkgDir) =
        [(lit "nobadfuncs", [lit "--config-json", J] ++ pkgPaths)] ∧
      ([lit "--config-json", J] ++ pkgPaths).length = pkgPaths.length + 2 ∧
      ([lit "--config-json", J] ++ pkgPaths).drop 2 = pkgPaths := by
  exact ⟨mapEncoder c.BadFuncs true, Marshal_eq _, checkCmdArgs_Check env parse c pkgPaths pkgDir, by simp,
    by simp⟩

/-- C9: `RunCheckCmd` hands `checker.AmalgomatedRunRawCheck` the name
`nobadfuncs` and the arguments it was given, unchanged, and makes no other
call; the checker and its table play no part. -/
theorem RunCheckCmd_passthrough {Cmd : Type} (c : nobadfuncsCheck) (args : List GoString) :
    (RunCheckCmd c args : List (Call Cmd)) =
      [Call.AmalgomatedRunRawCheck (lit "nobadfuncs") args] ∧
    ∀ c1 : nobadfuncsCheck, (RunCheckCmd c1 args : List (Call Cmd)) = RunCheckCmd c args :=
  ⟨rfl, fun _ => rfl⟩


/-! ## Theorems: relative paths -/

theorem cleanSegs_rooted_normal (segs : List GoString) :
    ∀ acc : List GoString, (∀ s ∈ acc, normalSeg s) →
      ∀ s ∈ cleanSegs true acc segs, normalSeg s := by
  induction segs with
  | nil => intro acc h s hs; exact h s (by simpa [cleanSegs] using hs)
  | cons seg rest ih =>
    intro acc h
    unfold cleanSegs
    by_cases h1 : seg = [] ∨ seg = lit "."
    · rw [if_pos h1]; exact ih acc h
    · rw [if_neg h1]
      by_cases h2 : seg = lit ".."
      · rw [if_pos h2]
        cases acc with
        | nil => simpa using ih [] (by simp)
        | cons top acc1 =>
          have htop : top ≠ lit ".." := (h top (by simp)).2.2
          simp only [htop, if_false]
          exact ih acc1 fun s hs => h s (by simp [hs])
      · rw [if_neg h2]
        refine ih (seg :: acc) ?_
        intro s hs
        rcases List.mem_cons.1 hs with rfl | hs
        · exact ⟨fun h0 => h1 (Or.inl h0), fun h0 => h1 (Or.inr h0), h2⟩
        · exact h s hs

theorem absSegs_normal (p : GoString) : ∀ s ∈ absSegs p, normalSeg s :=
  cleanSegs_rooted_normal _ [] (by simp)

theorem fileSegs_normal (wd path : GoString) : ∀ s ∈ fileSegs wd path, normalSeg s := by
  unfold fileSegs
  split
  · exact absSegs_normal path
  · exact cleanSegs_rooted_normal _ _ fun s hs => absSegs_normal wd s (by simpa using hs)

theorem cleanSegs_of_normal (rooted : Bool) (segs : List GoString) :
    ∀ acc : List GoString, (∀ s ∈ segs, normalSeg s) →
      cleanSegs rooted acc segs = acc.reverse ++ segs := by
  induction segs with
  | nil => intro acc _; simp [cleanSegs]
  | cons seg rest ih =>
    intro acc h
    obtain ⟨h0, h1, h2⟩ := h seg (by simp)
    unfold cleanSegs
    rw [if_neg (by simp [h0, h1]), if_neg h2, ih (seg :: acc) fun s hs => h s (by simp [hs])]
    simp

theorem cleanSegs_dotdot (rooted : Bool) (rest : List GoString) (up : List GoString) :
    ∀ acc : List GoString, (∀ s ∈ up, normalSeg s) →
      cleanSegs rooted (up ++ acc) (List.replicate up.length (lit "..") ++ rest) =
        cleanSegs rooted acc rest := by
  induction up with
  | nil => intro acc _; simp
  | cons top up ih =>
    intro acc h
    have htop : top ≠ lit ".." := (h top (by simp)).2.2
    have hd : ¬ (lit ".." = [] ∨ lit ".." = lit ".") := by decide
    simp only [List.length_cons, List.replicate_succ, List.cons_append]
    conv_lhs => unfold cleanSegs
    rw [if_neg hd, if_pos rfl]
    simp only [htop, if_false]
    exact ih acc fun s hs => h s (by simp [hs])

theorem relSegs_split (base : List GoString) :
    ∀ targ : List GoString, ∃ common up down,
      base = common ++ up ∧ targ = common ++ down ∧
      relSegs base targ = List.replicate up.length (lit "..") ++ down := by
  induction base with
  | nil => intro targ; exact ⟨[], [], targ, rfl, rfl, by simp [relSegs]⟩
  | cons b base ih =>
    intro targ
    cases targ with
    | nil => exact ⟨[], b :: base, [], rfl, rfl, by simp [relSegs]⟩
    | cons t targ =>
      by_cases hbt : b = t
      · subst hbt
        obtain ⟨common, up, down, h1, h2, h3⟩ := ih targ
        exact ⟨b :: common, up, down, by simp [h1], by simp [h2], by simp [relSegs, h3]⟩
      · exact ⟨[], b :: base, t :: targ, rfl, rfl, by simp [relSegs, hbt]⟩

theorem relSegs_resolves (base targ : List GoString) (hb : ∀ s ∈ base, normalSeg s)
    (ht : ∀ s ∈ targ, normalSeg s) :
    cleanSegs true base.reverse (relSegs base targ) = targ := by
  obtain ⟨common, up, down, h1, h2, h3⟩ := relSegs_split base targ
  subst h1 h2
  rw [h3, List.reverse_append]
  have := cleanSegs_dotdot true down up.reverse common.reverse
    (fun s hs => hb s (by simp at hs; simp [hs]))
  rw [List.length_reverse] at this
  rw [this, cleanSegs_of_normal true down _ fun s hs => ht s (by simp [hs])]
  simp

theorem relSegs_ancestor (common : List GoString) (down : List GoString) (file : GoString) :
    down ≠ [] → down.head? ≠ some file →
      relSegs (common ++ down) (common ++ [file]) =
        List.replicate down.length (lit "..") ++ [file] := by
  induction common with
  | nil =>
    intro h1 h2
    cases down with
    | nil => exact absurd rfl h1
    | cons d down =>
      have : d ≠ file := by simpa using h2
      simp [relSegs, this]
  | cons a common ih =>
    intro h1 h2
    simp only [List.cons_append, relSegs, if_true]
    exact ih h1 h2

/-- C3: when the check command runs in directory `wd`, the issues `Check`
reports are the lines of its output read with `wd`, whatever `pkgDir` is; in
the issue of a diagnostic line the path is the one from `wd` to the file: it
leads from `wd` to the file, and for a file in an ancestor directory it is made
of `..` segments followed by the name of the file. -/
theorem Check_reports_relative {Cmd : Type} (env : Env Cmd) (c : nobadfuncsCheck)
    (pkgPaths : List GoString) (pkgDir : GoString) (cmd : Cmd) (wd : GoString)
    (h : env.AmalgomatedCheckCmd TypeName
      (lit "--config-json" :: mapEncoder c.BadFuncs true :: pkgPaths) = (some cmd, wd)) :
    reportedIssues (Check env NewIssueFromLine c pkgPaths pkgDir) =
      (env.output cmd).map (fun line => NewIssueFromLine line wd) ∧
    (∀ pkgDir1, reportedIssues (Check env NewIssueFromLine c pkgPaths pkgDir1) =
      reportedIssues (Check env NewIssueFromLine c pkgPaths pkgDir)) ∧
    ∀ line path l col msg, parseLine line = some (path, l, col, msg) →
      NewIssueFromLine line wd =
        { Path := renderSegs (relSegs (absSegs wd) (fileSegs wd path)),
          Line := l, Col := col, Content := msg } ∧
      cleanSegs true (absSegs wd).reverse (relSegs (absSegs wd) (fileSegs wd path)) =
        fileSegs wd path ∧
      ∀ common down file, absSegs wd = common ++ down → fileSegs wd path = common ++ [file] →
        down ≠ [] → down.head? ≠ some file →
        (NewIssueFromLine line wd).Path =
          joinWith 0x2F (List.replicate down.length (lit "..") ++ [file]) := by
  have hrun : ∀ dir, reportedIssues (Check env NewIssueFromLine c pkgPaths dir) =
      (env.output cmd).map (fun line => NewIssueFromLine line wd) := by
    intro dir
    simp [Check, Marshal_eq, h, reportedIssues]
  refine ⟨hrun pkgDir, fun d => by rw [hrun d, hrun pkgDir], ?_⟩
  intro line path l col msg hp
  have hissue : NewIssueFromLine line wd =
      { Path := renderSegs (relSegs (absSegs wd) (fileSegs wd path)),
        Line := l, Col := col, Content := msg } := by
    simp [NewIssueFromLine, hp, relativeTo]
  refine ⟨hissue, relSegs_resolves _ _ (absSegs_normal wd) (fileSegs_normal wd path), ?_⟩
  intro common down file h1 h2 h3 h4
  rw [hissue, h1, h2, relSegs_ancestor common down file h3 h4]
  cases down with
  | nil => exact absurd rfl h3
  | cons d down => simp [renderSegs, List.replicate_succ]

/-- Witness of C3: the file `foo.go` of directory `/work`, checked from
`/work/inner`, is reported as `../foo.go`. -/
theorem Check_reports_relative_witness :
    reportedIssues (Check (fixedEnv (lit "/work/inner")
        [lit "/work/foo.go:6:5: do not call os.Exit directly"]) NewIssueFromLine
        { BadFuncs := some [(lit "func os.Exit(int)", lit "do not call os.Exit directly")] }
        [lit "./..."] (lit ".")) =
      [{ Path := lit "../foo.go", Line := 6, Col := 5,
         Content := lit "do not call os.Exit directly" }] ∧
    issueLine
        { Path := lit "../foo.go", Line := 6, Col := 5,
          Content := lit "do not call os.Exit directly" } =
      lit "../foo.go:6:5: do not call os.Exit directly" := by
  have h := (Check_reports_relative (fixedEnv (lit "/work/inner")
    [lit "/work/foo.go:6:5: do not call os.Exit directly"])
    { BadFuncs := some [(lit "func os.Exit(int)", lit "do not call os.Exit directly")] }
    [lit "./..."] (lit ".") () (lit "/work/inner") rfl).1
  rw [h]
  exact ⟨by decide, by decide⟩

/-! ## Theorems: the factory -/

theorem quoteLoop_plain (table : Nat → Bool) (fuel : Nat) :
    ∀ s : GoString, s.length ≤ fuel → (∀ b ∈ s, plainByte b) → quoteLoop table fuel s = s := by
  induction fuel with
  | zero =>
    intro s hlen _
    cases s with
    | nil => rfl
    | cons b rest => simp at hlen
  | succ fuel ih =>
    intro s hlen hs
    cases s with
    | nil => rfl
    | cons b rest =>
      obtain ⟨h1, h2, h3, h4⟩ := hs b (by simp)
      have hb : b < 0x80 := by omega
      have hr : b ≠ RuneError := by unfold RuneError; omega
      have hp : IsPrint table b = true := by
        unfold IsPrint
        rw [if_pos (by omega), if_pos ⟨h1, by omega⟩]
      have he : appendEscapedRune table b = [b] := by
        unfold appendEscapedRune
        rw [if_neg (by omega), if_pos hp]
        unfold EncodeRune
        rw [if_pos (by omega)]
      have hrest := ih rest (by simpa using hlen) fun x hx => hs x (by simp [hx])
      simp only [quoteLoop, hb, if_true, hr, and_false, if_false, he, Nat.sub_self, List.drop_zero,
        hrest, List.singleton_append]

theorem Quote_plain (table : Nat → Bool) (s : GoString) (h : ∀ b ∈ s, plainByte b) :
    Quote table s = [0x22] ++ s ++ [0x22] := by
  simp [Quote, quoteLoop_plain table s.length s (Nat.le_refl _) h]

/-- C4 (amended): the factory fails exactly when decoding the document fails;
no checker is then returned and the error is the decode error wrapped with a
message that contains the document in the quoted form of `%q`; otherwise the
checker has the decoded table, whatever its keys. -/
theorem Creator_result (yamlUnmarshal : GoString → Except GoString nobadfuncsCheckCfg)
    (table : Nat → Bool) (cfgYML : GoString) :
    ((∃ e, Creator yamlUnmarshal table cfgYML = .error e) ↔ ∃ err, yamlUnmarshal cfgYML = .error err) ∧
    (∀ err, yamlUnmarshal cfgYML = .error err →
      Creator yamlUnmarshal table cfgYML =
        .error (lit "failed to unmarshal configuration YAML " ++ Quote table cfgYML ++ lit ": " ++
          err) ∧
      Quote table cfgYML <:+:
        lit "failed to unmarshal configuration YAML " ++ Quote table cfgYML ++ lit ": " ++ err) ∧
    (∀ cfg, yamlUnmarshal cfgYML = .ok cfg →
      Creator yamlUnmarshal table cfgYML = .ok { BadFuncs := cfg.BadFuncs }) := by
  refine ⟨?_, ?_, ?_⟩
  · unfold Creator
    cases h : yamlUnmarshal cfgYML <;> simp
  · intro err h
    refine ⟨by simp [Creator, h, Wrapf], ?_⟩
    exact ⟨lit "failed to unmarshal configuration YAML ", lit ": " ++ err, by simp⟩
  · intro cfg h
    simp [Creator, h]

/-- Witness of C4 (amended): the document `bad-funcs: 1` with its line end is
rejected, and the error holds it in quoted form, the line end escaped. -/
theorem Creator_result_witness :
    Creator rejectInt (fun _ => true) (lit "bad-funcs: 1\n") =
      .error (lit "failed to unmarshal configuration YAML " ++
        Quote (fun _ => true) (lit "bad-funcs: 1\n") ++ lit ": " ++
        lit "yaml: unmarshal errors:\n  line 1: cannot unmarshal !!int `1` into map[string]string") ∧
    Quote (fun _ => true) (lit "bad-funcs: 1\n") = lit "\"bad-funcs: 1\\n\"" :=
  ⟨((Creator_result rejectInt (fun _ => true) (lit "bad-funcs: 1\n")).2.1
    (lit "yaml: unmarshal errors:\n  line 1: cannot unmarshal !!int `1` into map[string]string")
    rfl).1, by decide⟩

/-- Counterexample to C4: for the document `bad-funcs: 1` followed by a line
end the factory fails, and the message has the line end as the two characters
of its escape: the text of the document is not part of the message. -/
theorem Creator_message_counterexample :
    Creator rejectInt (fun _ => true) (lit "bad-funcs: 1\n") =
      .error (lit ("failed to unmarshal configuration YAML \"bad-funcs: 1\\n\": " ++
        "yaml: unmarshal errors:\n  line 1: cannot unmarshal !!int `1` into map[string]string")) ∧
    ¬ (lit "bad-funcs: 1\n" <:+:
      lit ("failed to unmarshal configuration YAML \"bad-funcs: 1\\n\": " ++
        "yaml: unmarshal errors:\n  line 1: cannot unmarshal !!int `1` into map[string]string")) := by
  constructor
  · rfl
  · set_option maxRecDepth 100000 in decide

/-! ## Theorems: the order of the encoded members -/

theorem strLE_total (a : GoString) : ∀ b : GoString, strLE a b = true ∨ strLE b a = true := by
  induction a with
  | nil => intro b; simp [strLE]
  | cons x a ih =>
    intro b
    cases b with
    | nil => simp [strLE]
    | cons y b =>
      simp only [strLE]
      by_cases h1 : x < y
      · simp [h1]
      · by_cases h2 : y < x
        · simp [h2]
        · simp only [h1, h2, if_false]
          exact ih b

theorem strLE_trans (a : GoString) :
    ∀ b c : GoString, strLE a b = true → strLE b c = true → strLE a c = true := by
  induction a with
  | nil => intro b c _ _; simp [strLE]
  | cons x a ih =>
    intro b c hab hbc
    cases b with
    | nil => simp [strLE] at hab
    | cons y b =>
      cases c with
      | nil => simp [strLE] at hbc
      | cons z c =>
        simp only [strLE] at hab hbc ⊢
        by_cases hxy : x < y
        · by_cases hyz : y < z
          · have : x < z := by omega
            simp [this]
          · by_cases hzy : z < y
            · simp [hyz, hzy] at hbc
            · have : x < z := by omega
              simp [this]
        · by_cases hyx : y < x
          · simp [hxy, hyx] at hab
          · simp only [hxy, hyx, if_false] at hab
            have hxy1 : x = y := by omega
            subst hxy1
            by_cases hxz : x < z
            · simp [hxz]
            · by_cases hzx : z < x
              · simp [hxz, hzx] at hbc
              · simp only [hxz, hzx, if_false] at hbc ⊢
                exact ih b c hab hbc

theorem strLE_antisymm (a : GoString) :
    ∀ b : GoString, strLE a b = true → strLE b a = true → a = b := by
  induction a with
  | nil =>
    intro b _ hba
    cases b with
    | nil => rfl
    | cons y b => simp [strLE] at hba
  | cons x a ih =>
    intro b hab hba
    cases b with
    | nil => simp [strLE] at hab
    | cons y b =>
      simp only [strLE] at hab hba
      by_cases hxy : x < y
      · have : ¬ y < x := by omega
        simp [hxy, this] at hba
      · by_cases hyx : y < x
        · simp [hxy, hyx] at hab
        · simp only [hxy, hyx, if_false] at hab hba
          have hxy1 : x = y := by omega
          rw [hxy1, ih b hab hba]

instance : IsTotal (GoString × GoString) keyLE :=
  ⟨fun a b => strLE_total a.1 b.1⟩

instance : IsTrans (GoString × GoString) keyLE :=
  ⟨fun a b c => strLE_trans a.1 b.1 c.1⟩

instance : IsAntisymm GoString (fun a b => strLE a b = true) :=
  ⟨fun a b => strLE_antisymm a b⟩

theorem sortEntries_perm (es : List (GoString × GoString)) : (sortEntries es).Perm es :=
  List.perm_insertionSort keyLE es

theorem sortEntries_sorted (es : List (GoString × GoString)) :
    List.Sorted keyLE (sortEntries es) :=
  List.sorted_insertionSort keyLE es

theorem entries_eq_of_keys_eq (l1 : List (GoString × GoString)) :
    ∀ l2 : List (GoString × GoString), l1.map Prod.fst = l2.map Prod.fst →
      (l1.map Prod.fst).Nodup → (∀ e, e ∈ l1 → e ∈ l2) → l1 = l2 := by
  induction l1 with
  | nil =>
    intro l2 hk _ _
    cases l2 with
    | nil => rfl
    | cons e l2 => simp at hk
  | cons e1 l1 ih =>
    intro l2 hk hnd hsub
    cases l2 with
    | nil => simp at hk
    | cons e2 l2 =>
      simp only [List.map_cons, List.cons.injEq] at hk
      obtain ⟨hk1, hk2⟩ := hk
      simp only [List.map_cons, List.nodup_cons] at hnd
      obtain ⟨hnot, hnd1⟩ := hnd
      have he : e1 = e2 := by
        rcases List.mem_cons.1 (hsub e1 (by simp)) with h | h
        · exact h
        · exact absurd (hk2 ▸ List.mem_map_of_mem Prod.fst h) hnot
      subst he
      congr 1
      refine ih l2 hk2 hnd1 ?_
      intro e he
      rcases List.mem_cons.1 (hsub e (by simp [he])) with h | h
      · exact absurd (h ▸ List.mem_map_of_mem Prod.fst he) hnot
      · exact h

theorem sorted_entries_unique (l1 l2 : List (GoString × GoString)) (hp : l1.Perm l2)
    (h1 : List.Sorted keyLE l1) (h2 : List.Sorted keyLE l2) (hnd : (l1.map Prod.fst).Nodup) :
    l1 = l2 := by
  have hk : l1.map Prod.fst = l2.map Prod.fst := by
    refine List.eq_of_perm_of_sorted (r := fun a b => strLE a b = true) (hp.map _) ?_ ?_
    · exact List.pairwise_map.2 h1
    · exact List.pairwise_map.2 h2
  exact entries_eq_of_keys_eq l1 l2 hk hnd fun e he => hp.subset he

theorem sortEntries_congr (es1 es2 : List (GoString × GoString))
    (h1 : (es1.map Prod.fst).Nodup) (h2 : (es2.map Prod.fst).Nodup)
    (h : ∀ e, e ∈ es1 ↔ e ∈ es2) : sortEntries es1 = sortEntries es2 := by
  have hp : es1.Perm es2 := (List.perm_ext_iff_of_nodup h1.of_map h2.of_map).2 h
  have hps : (sortEntries es1).Perm (sortEntries es2) :=
    ((sortEntries_perm es1).trans hp).trans (sortEntries_perm es2).symm
  refine sorted_entries_unique _ _ hps (sortEntries_sorted es1) (sortEntries_sorted es2) ?_
  exact (((sortEntries_perm es1).map Prod.fst).nodup_iff).2 h1

theorem sortEntries_keys_nodup (es : List (GoString × GoString))
    (h : (es.map Prod.fst).Nodup) : ((sortEntries es).map Prod.fst).Nodup :=
  (((sortEntries_perm es).map Prod.fst).nodup_iff).2 h

/-- C6 (amended): two tables that are both nil or both not nil and hold the
same entries, in whatever order, make `Check` hand over the same argument
vector and make the same calls. -/
theorem Check_deterministic {Cmd : Type} (env : Env Cmd) (parse : GoString → GoString → Issue)
    (c1 c2 : nobadfuncsCheck) (pkgPaths : List GoString) (pkgDir : GoString)
    (h1 : c1.BadFuncs.WF) (h2 : c2.BadFuncs.WF)
    (hnil : c1.BadFuncs.isSome = c2.BadFuncs.isSome)
    (hent : ∀ e, e ∈ c1.BadFuncs.entries ↔ e ∈ c2.BadFuncs.entries) :
    checkCmdArgs (Check env parse c1 pkgPaths pkgDir) =
      checkCmdArgs (Check env parse c2 pkgPaths pkgDir) ∧
    Check env parse c1 pkgPaths pkgDir = Check env parse c2 pkgPaths pkgDir := by
  have hm : Marshal c1.BadFuncs = Marshal c2.BadFuncs := by
    obtain ⟨t1⟩ := c1
    obtain ⟨t2⟩ := c2
    cases t1 with
    | none =>
      cases t2 with
      | none => rfl
      | some es2 => simp at hnil
    | some es1 =>
      cases t2 with
      | none => simp at hnil
      | some es2 =>
        have := sortEntries_congr es1 es2 h1 h2 hent
        simp only [Marshal_eq, mapEncoder, this]
  have hc : Check env parse c1 pkgPaths pkgDir = Check env parse c2 pkgPaths pkgDir := by
    simp only [Check, hm]
  exact ⟨by rw [hc], hc⟩

/-- Witness of C6 (amended): the same two entries in the two orders. -/
theorem Check_deterministic_witness :
    checkCmdArgs (Check noCmdEnv NewIssueFromLine
        { BadFuncs := some [(lit "a", lit "x"), (lit "b", lit "y")] } [lit "./..."] (lit ".")) =
      checkCmdArgs (Check noCmdEnv NewIssueFromLine
        { BadFuncs := some [(lit "b", lit "y"), (lit "a", lit "x")] } [lit "./..."] (lit ".")) :=
  (Check_deterministic noCmdEnv NewIssueFromLine
    { BadFuncs := some [(lit "a", lit "x"), (lit "b", lit "y")] }
    { BadFuncs := some [(lit "b", lit "y"), (lit "a", lit "x")] } [lit "./..."] (lit ".")
    (by decide) (by decide) rfl
    (by intro e; simp [GoMap.entries]; tauto)).1

/-- Counterexample to C6: the nil table and the empty table hold the same
entries, none, and `Check` hands over `null` for the one and an empty object
for the other. -/
theorem Check_nil_empty_counterexample :
    (∀ e, e ∈ GoMap.entries none ↔ e ∈ GoMap.entries (some [])) ∧
    checkCmdArgs (Check noCmdEnv NewIssueFromLine { BadFuncs := none } [lit "./..."] (lit ".")) =
      [(lit "nobadfuncs", [lit "--config-json", lit "null", lit "./..."])] ∧
    checkCmdArgs (Check noCmdEnv NewIssueFromLine { BadFuncs := some [] } [lit "./..."] (lit ".")) =
      [(lit "nobadfuncs", [lit "--config-json", lit "\x7b\x7d", lit "./..."])] ∧
    checkCmdArgs (Check noCmdEnv NewIssueFromLine { BadFuncs := none } [lit "./..."] (lit ".")) ≠
      checkCmdArgs (Check noCmdEnv NewIssueFromLine { BadFuncs := some [] } [lit "./..."] (lit ".")) := by
  refine ⟨fun e => Iff.rfl, by decide, by decide, by decide⟩

/-! ## Theorems: UTF-8 -/

theorem first_cases (b : Nat) :
    first b = none ∨
    (0xC2 ≤ b ∧ b ≤ 0xDF ∧ first b = some (2, 0x80, 0xBF)) ∨
    (∃ lo hi, 0xE0 ≤ b ∧ b ≤ 0xEF ∧ first b = some (3, lo, hi) ∧ 0x80 ≤ lo ∧ hi ≤ 0xBF ∧
      (b = 0xE0 → lo = 0xA0) ∧ (b = 0xED → hi = 0x9F)) ∨
    (∃ lo hi, 0xF0 ≤ b ∧ b ≤ 0xF4 ∧ first b = some (4, lo, hi) ∧ 0x80 ≤ lo ∧ hi ≤ 0xBF ∧
      (b = 0xF0 → lo = 0x90) ∧ (b = 0xF4 → hi = 0x8F)) := by
  unfold first
  by_cases h1 : b < 0xC2
  · left; simp [h1]
  by_cases h2 : b ≤ 0xDF
  · right; left; simp [h1, h2]; omega
  by_cases h3 : b = 0xE0
  · right; right; left; subst h3; exact ⟨0xA0, 0xBF, by simp⟩
  by_cases h4 : b ≤ 0xEC
  · right; right; left
    exact ⟨0x80, 0xBF, by omega, by omega, by simp [h1, h2, h3, h4], by omega, by omega,
      fun h => absurd h h3, fun h => by omega⟩
  by_cases h5 : b = 0xED
  · right; right; left; subst h5; exact ⟨0x80, 0x9F, by simp⟩
  by_cases h6 : b ≤ 0xEF
  · right; right; left
    exact ⟨0x80, 0xBF, by omega, by omega, by simp [h1, h2, h3, h4, h5, h6], by omega, by omega,
      fun h => absurd h h3, fun h => absurd h h5⟩
  by_cases h7 : b = 0xF0
  · right; right; right; subst h7; exact ⟨0x90, 0xBF, by simp⟩
  by_cases h8 : b ≤ 0xF3
  · right; right; right
    exact ⟨0x80, 0xBF, by omega, by omega, by simp [h1, h2, h3, h4, h5, h6, h7, h8], by omega,
      by omega, fun h => absurd h h7, fun h => by omega⟩
  by_cases h9 : b = 0xF4
  · right; right; right; subst h9; exact ⟨0x80, 0x8F, by simp⟩
  · left; simp [h1, h2, h3, h4, h5, h6, h7, h8, h9]

theorem decode_valid (b : Nat) (rest : List Nat) (hb : ¬ b < 0x80)
    (hv : ¬ ((DecodeRuneInString (b :: rest)).1 = RuneError ∧
      (DecodeRuneInString (b :: rest)).2 = 1)) :
    ∃ mid tl, rest = mid ++ tl ∧ (DecodeRuneInString (b :: rest)).2 = mid.length + 1 ∧
      mid ≠ [] ∧
      EncodeRune (DecodeRuneInString (b :: rest)).1 = b :: mid ∧
      ∀ more, DecodeRuneInString (b :: (mid ++ more)) = DecodeRuneInString (b :: rest) := by
  rcases first_cases b with h | ⟨h1, h2, h⟩ | ⟨lo, hi, h1, h2, h, hlo, hhi, hlo1, hhi1⟩ |
      ⟨lo, hi, h1, h2, h, hlo, hhi, hlo1, hhi1⟩
  · simp [DecodeRuneInString, hb, h] at hv
  · cases rest with
    | nil => simp [DecodeRuneInString, hb, h] at hv
    | cons s1 t =>
      by_cases hs1 : s1 < 0x80 ∨ 0xBF < s1
      · simp [DecodeRuneInString, hb, h, hs1] at hv
      · have hd : ∀ more, DecodeRuneInString (b :: s1 :: more) = (b % 32 * 64 + s1 % 64, 2) := by
          intro more
          simp [DecodeRuneInString, hb, h, hs1]
        refine ⟨[s1], t, rfl, by rw [hd t]; rfl, by simp, ?_, fun more => by
          rw [List.singleton_append, hd more, hd t]⟩
        rw [hd t]
        simp only
        unfold EncodeRune
        rw [if_neg (by omega), if_pos (by omega)]
        congr 1
        · omega
        · congr 1
          omega
  · cases rest with
    | nil => simp [DecodeRuneInString, hb, h] at hv
    | cons s1 t =>
      by_cases hs1 : s1 < lo ∨ hi < s1
      · simp [DecodeRuneInString, hb, h, hs1] at hv
      · cases t with
        | nil => simp [DecodeRuneInString, hb, h, hs1] at hv
        | cons s2 t =>
          by_cases hs2 : s2 < 0x80 ∨ 0xBF < s2
          · simp [DecodeRuneInString, hb, h, hs1, hs2] at hv
          · have hd : ∀ more, DecodeRuneInString (b :: s1 :: s2 :: more) =
                (b % 16 * 4096 + s1 % 64 * 64 + s2 % 64, 3) := by
              intro more
              simp [DecodeRuneInString, hb, h, hs1, hs2]
            refine ⟨[s1, s2], t, rfl, by rw [hd t]; rfl, by simp, ?_, fun more => by
              rw [List.cons_append, List.singleton_append, hd more, hd t]⟩
            rw [hd t]
            simp only
            have e0 : b ≠ 0xE0 ∨ 0xA0 ≤ s1 := by
              by_cases hb0 : b = 0xE0
              · right; have := hlo1 hb0; omega
              · left; exact hb0
            have e1 : b ≠ 0xED ∨ s1 ≤ 0x9F := by
              by_cases hb0 : b = 0xED
              · right; have := hhi1 hb0; omega
              · left; exact hb0
            unfold EncodeRune MaxRune
            rw [if_neg (by omega), if_neg (by omega), if_neg (by omega), if_pos (by omega)]
            congr 1
            · omega
            · congr 1
              · omega
              · congr 1
                omega
  · cases rest with
    | nil => simp [DecodeRuneInString, hb, h] at hv
    | cons s1 t =>
      by_cases hs1 : s1 < lo ∨ hi < s1
      · simp [DecodeRuneInString, hb, h, hs1] at hv
      · cases t with
        | nil => simp [DecodeRuneInString, hb, h, hs1] at hv
        | cons s2 t =>
          by_cases hs2 : s2 < 0x80 ∨ 0xBF < s2
          · simp [DecodeRuneInString, hb, h, hs1, hs2] at hv
          · cases t with
            | nil => simp [DecodeRuneInString, hb, h, hs1, hs2] at hv
            | cons s3 t =>
              by_cases hs3 : s3 < 0x80 ∨ 0xBF < s3
              · simp [DecodeRuneInString, hb, h, hs1, hs2, hs3] at hv
              · have hd : ∀ more, DecodeRuneInString (b :: s1 :: s2 :: s3 :: more) =
                    (b % 8 * 262144 + s1 % 64 * 4096 + s2 % 64 * 64 + s3 % 64, 4) := by
                  intro more
                  simp [DecodeRuneInString, hb, h, hs1, hs2, hs3]
                refine ⟨[s1, s2, s3], t, rfl, by rw [hd t]; rfl, by simp, ?_, fun more => by
                  rw [List.cons_append, List.cons_append, List.singleton_append, hd more, hd t]⟩
                rw [hd t]
                simp only
                have e0 : b ≠ 0xF0 ∨ 0x90 ≤ s1 := by
                  by_cases hb0 : b = 0xF0
                  · right; have := hlo1 hb0; omega
                  · left; exact hb0
                have e1 : b ≠ 0xF4 ∨ s1 ≤ 0x8F := by
                  by_cases hb0 : b = 0xF4
                  · right; have := hhi1 hb0; omega
                  · left; exact hb0
                unfold EncodeRune MaxRune
                rw [if_neg (by omega), if_neg (by omega), if_neg (by omega), if_neg (by omega)]
                congr 1
                · omega
                · congr 1
                  · omega
                  · congr 1
                    · omega
                    · congr 1
                      omega

/-! ## Theorems: a string literal decodes to the string it encodes -/

theorem unhex_hex : ∀ n, n < 16 → unhex (hex n) = some n := by
  decide

theorem escapeByte_length (b : Nat) : 2 ≤ (escapeByte b).length := by
  unfold escapeByte
  split_ifs <;> simp

theorem unquoteLoop_safe (b : Nat) (hs : htmlSafeSet b = true) (fuel : Nat) (more : List Nat) :
    unquoteLoop (fuel + 1) (b :: more) = prepend [b] (unquoteLoop fuel more) := by
  simp only [htmlSafeSet, Bool.and_eq_true, decide_eq_true_eq, Bool.not_eq_true',
    Bool.or_eq_false_iff, decide_eq_false_iff_not] at hs
  obtain ⟨⟨h1, h2⟩, ⟨⟨⟨h3, _⟩, _⟩, _⟩, h4⟩ := hs
  have h5 : ¬ b < 0x20 := by omega
  simp only [unquoteLoop, h3, h4, h5, h2, if_false, if_true]

theorem unquoteLoop_escape (b : Nat) (hb : b < 0x80) (hs : htmlSafeSet b = false) (fuel : Nat)
    (more : List Nat) :
    unquoteLoop (fuel + 1) (escapeByte b ++ more) = prepend [b] (unquoteLoop fuel more) := by
  unfold escapeByte
  by_cases h1 : b = 0x5C ∨ b = 0x22
  · rcases h1 with h1 | h1 <;> subst h1 <;> simp [unquoteLoop, unescape]
  rw [if_neg h1]
  by_cases h2 : b = 0x08
  · subst h2; simp [unquoteLoop, unescape]
  rw [if_neg h2]
  by_cases h3 : b = 0x0C
  · subst h3; simp [unquoteLoop, unescape]
  rw [if_neg h3]
  by_cases h4 : b = 0x0A
  · subst h4; simp [unquoteLoop, unescape]
  rw [if_neg h4]
  by_cases h5 : b = 0x0D
  · subst h5; simp [unquoteLoop, unescape]
  rw [if_neg h5]
  by_cases h6 : b = 0x09
  · subst h6; simp [unquoteLoop, unescape]
  rw [if_neg h6]
  have hu1 := unhex_hex (b / 16) (by omega)
  have hu2 := unhex_hex (b % 16) (by omega)
  have hu0 : unhex 0x30 = some 0 := by decide
  have hg : getu4 (0x5C :: 0x75 :: 0x30 :: 0x30 :: hex (b / 16) :: hex (b % 16) :: more) =
      some b := by
    simp only [getu4, hu0, hu1, hu2, Option.some.injEq]
    omega
  have hsur : IsSurrogate b = false := by
    simp [IsSurrogate]
    omega
  have henc : EncodeRune b = [b] := by
    unfold EncodeRune
    rw [if_pos (by omega)]
  simp only [List.cons_append, List.nil_append, unquoteLoop]
  simp [hg, hsur, henc]

theorem unquoteLoop_appendStringLoop (fa : Nat) :
    ∀ (s : GoString) (fu : Nat) (more : List Nat), s.length ≤ fa →
      (appendStringLoop true fa s ++ 0x22 :: more).length ≤ fu →
      unquoteLoop fu (appendStringLoop true fa s ++ 0x22 :: more) =
        some (coerceLoop fa s, more) := by
  have base : ∀ (fa fu : Nat) (more : List Nat),
      (appendStringLoop true fa [] ++ 0x22 :: more).length ≤ fu →
      unquoteLoop fu (appendStringLoop true fa [] ++ 0x22 :: more) =
        some (coerceLoop fa [], more) := by
    intro fa fu more hfu
    have he : appendStringLoop true fa [] = [] := by cases fa <;> rfl
    have hc : coerceLoop fa [] = [] := by cases fa <;> rfl
    rw [he] at hfu ⊢
    rw [hc]
    cases fu with
    | zero => simp at hfu
    | succ fu => simp [unquoteLoop]
  induction fa with
  | zero =>
    intro s fu more hfa hfu
    cases s with
    | nil => exact base 0 fu more hfu
    | cons b rest => simp at hfa
  | succ fa ih =>
    intro s fu more hfa hfu
    cases s with
    | nil => exact base (fa + 1) fu more hfu
    | cons b rest =>
      have hfa1 : rest.length ≤ fa := by simpa using hfa
      by_cases hb : b < 0x80
      · have hc : coerceLoop (fa + 1) (b :: rest) = b :: coerceLoop fa rest := by
          simp [coerceLoop, hb]
        by_cases hs : htmlSafeSet b = true
        · have he : appendStringLoop true (fa + 1) (b :: rest) =
              b :: appendStringLoop true fa rest := by
            simp [appendStringLoop, hb, hs]
          rw [he] at hfu ⊢
          cases fu with
          | zero => simp at hfu
          | succ fu =>
            rw [List.cons_append, unquoteLoop_safe b hs,
              ih rest fu more hfa1 (by simpa using hfu), hc]
            rfl
        · have hs1 : htmlSafeSet b = false := by simpa using hs
          have he : appendStringLoop true (fa + 1) (b :: rest) =
              escapeByte b ++ appendStringLoop true fa rest := by
            simp [appendStringLoop, hb, hs1]
          rw [he] at hfu ⊢
          cases fu with
          | zero => simp at hfu
          | succ fu =>
            have hlen := escapeByte_length b
            rw [List.append_assoc, unquoteLoop_escape b hb hs1,
              ih rest fu more hfa1 (by simp at hfu ⊢; omega), hc]
            rfl
      · by_cases hinv : (DecodeRuneInString (b :: rest)).1 = RuneError ∧
            (DecodeRuneInString (b :: rest)).2 = 1
        · have he : appendStringLoop true (fa + 1) (b :: rest) =
              [0x5C, 0x75, 0x66, 0x66, 0x66, 0x64] ++ appendStringLoop true fa rest := by
            simp only [appendStringLoop, hb, if_false, hinv, and_self, if_true]
          have hc : coerceLoop (fa + 1) (b :: rest) = [0xEF, 0xBF, 0xBD] ++ coerceLoop fa rest := by
            simp only [coerceLoop, hb, if_false, hinv, and_self, if_true]
          have hg : ∀ tail, getu4 (0x5C :: 0x75 :: 0x66 :: 0x66 :: 0x66 :: 0x64 :: tail) =
              some RuneError := fun _ => rfl
          have hsur : IsSurrogate RuneError = false := by decide
          have henc : EncodeRune RuneError = [0xEF, 0xBF, 0xBD] := by decide
          rw [he] at hfu ⊢
          rw [hc]
          cases fu with
          | zero => simp at hfu
          | succ fu =>
            have hrec := ih rest fu more hfa1 (by simp at hfu ⊢; omega)
            simp only [List.cons_append, List.nil_append, unquoteLoop]
            simp [hg, hsur, henc, hrec, prepend]
        · obtain ⟨mid, tl, hrest, hsz, hmid, henc, hdec⟩ := decode_valid b rest hb hinv
          have hdrop : rest.drop ((DecodeRuneInString (b :: rest)).2 - 1) = tl := by
            rw [hsz, hrest]
            simp
          have htake : (b :: rest).take (DecodeRuneInString (b :: rest)).2 = b :: mid := by
            rw [hsz, hrest]
            simp
          have hfa2 : tl.length ≤ fa := by
            rw [hrest] at hfa1
            simp at hfa1
            omega
          have hc : coerceLoop (fa + 1) (b :: rest) = b :: (mid ++ coerceLoop fa tl) := by
            simp only [coerceLoop, hb, if_false, hinv, hdrop, htake, List.cons_append]
          have hres : prepend (b :: mid) (some (coerceLoop fa tl, more)) =
              some (coerceLoop (fa + 1) (b :: rest), more) := by
            simp [prepend, hc]
          by_cases hls : (DecodeRuneInString (b :: rest)).1 = 0x2028 ∨
              (DecodeRuneInString (b :: rest)).1 = 0x2029
          · have he : appendStringLoop true (fa + 1) (b :: rest) =
                [0x5C, 0x75, 0x32, 0x30, 0x32, hex ((DecodeRuneInString (b :: rest)).1 % 16)] ++
                  appendStringLoop true fa tl := by
              simp only [appendStringLoop, hb, if_false, hinv, hls, if_true, hdrop]
            have hg : ∀ tail, getu4 (0x5C :: 0x75 :: 0x32 :: 0x30 :: 0x32 ::
                hex ((DecodeRuneInString (b :: rest)).1 % 16) :: tail) =
                some (DecodeRuneInString (b :: rest)).1 := by
              intro tail
              rcases hls with h | h <;> rw [h] <;> rfl
            have hsur : IsSurrogate (DecodeRuneInString (b :: rest)).1 = false := by
              rcases hls with h | h <;> rw [h] <;> rfl
            rw [he] at hfu ⊢
            cases fu with
            | zero => simp at hfu
            | succ fu =>
              have hrec := ih tl fu more hfa2 (by simp at hfu ⊢; omega)
              simp only [List.cons_append, List.nil_append, unquoteLoop]
              simp [hg, hsur, henc, hrec, hres]
          · have he : appendStringLoop true (fa + 1) (b :: rest) =
                b :: (mid ++ appendStringLoop true fa tl) := by
              simp only [appendStringLoop, hb, if_false, hinv, hls, hdrop, htake, List.cons_append]
            rw [he] at hfu ⊢
            cases fu with
            | zero => simp at hfu
            | succ fu =>
              have hrec := ih tl fu more hfa2 (by simp at hfu ⊢; omega)
              have h1 : b ≠ 0x22 := by omega
              have h2 : b ≠ 0x5C := by omega
              have h3 : ¬ b < 0x20 := by omega
              have hdec1 := hdec (appendStringLoop true fa tl ++ 0x22 :: more)
              have hdrop1 : (mid ++ (appendStringLoop true fa tl ++ 0x22 :: more)).drop
                  ((DecodeRuneInString (b :: rest)).2 - 1) =
                  appendStringLoop true fa tl ++ 0x22 :: more := by
                rw [hsz]
                simp
              have hform : b :: (mid ++ appendStringLoop true fa tl) ++ 0x22 :: more =
                  b :: (mid ++ (appendStringLoop true fa tl ++ 0x22 :: more)) := by simp
              rw [hform]
              simp only [unquoteLoop, h1, h2, h3, hb, if_false, hdec1, henc, hdrop1, hrec, hres]

theorem coerceLoop_valid (fa : Nat) :
    ∀ (s : GoString) (fv : Nat), s.length ≤ fa → s.length ≤ fv →
      ValidStringLoop fv s = true → coerceLoop fa s = s := by
  induction fa with
  | zero =>
    intro s fv hfa _ _
    cases s with
    | nil => rfl
    | cons b rest => simp at hfa
  | succ fa ih =>
    intro s fv hfa hfv hvalid
    cases s with
    | nil => rfl
    | cons b rest =>
      cases fv with
      | zero => simp at hfv
      | succ fv =>
        have hfa1 : rest.length ≤ fa := by simpa using hfa
        have hfv1 : rest.length ≤ fv := by simpa using hfv
        by_cases hb : b < 0x80
        · have hvalid1 : ValidStringLoop fv rest = true := by
            simpa [ValidStringLoop, hb] using hvalid
          simp [coerceLoop, hb, ih rest fv hfa1 hfv1 hvalid1]
        · have hsize : (DecodeRuneInString (b :: rest)).2 ≠ 1 := by
            intro h1
            simp [ValidStringLoop, hb, h1] at hvalid
          have hinv : ¬ ((DecodeRuneInString (b :: rest)).1 = RuneError ∧
              (DecodeRuneInString (b :: rest)).2 = 1) := fun h => hsize h.2
          have hvalid1 : ValidStringLoop fv
              (rest.drop ((DecodeRuneInString (b :: rest)).2 - 1)) = true := by
            simpa [ValidStringLoop, hb, hsize] using hvalid
          obtain ⟨mid, tl, hrest, hsz, _, _, _⟩ := decode_valid b rest hb hinv
          have hdrop : rest.drop ((DecodeRuneInString (b :: rest)).2 - 1) = tl := by
            rw [hsz, hrest]
            simp
          have htake : (b :: rest).take (DecodeRuneInString (b :: rest)).2 = b :: mid := by
            rw [hsz, hrest]
            simp
          rw [hdrop] at hvalid1
          have hrec := ih tl fv (by rw [hrest] at hfa1; simp at hfa1; omega)
            (by rw [hrest] at hfv1; simp at hfv1; omega) hvalid1
          simp only [coerceLoop, hb, if_false, hinv, hdrop, htake, hrec, List.cons_append]
          rw [hrest]

theorem coerceUTF8_valid (s : GoString) (hv : ValidString s = true) : coerceUTF8 s = s :=
  coerceLoop_valid s.length s s.length (Nat.le_refl _) (Nat.le_refl _) hv

/-! ## Theorems: an encoded table decodes to the table -/

theorem appendString_cons (s : GoString) (more : List Nat) :
    appendString s true ++ more =
      0x22 :: (appendStringLoop true s.length s ++ 0x22 :: more) := by
  simp [appendString]

theorem decodeString_appendString (s : GoString) (more : List Nat) :
    decodeString (appendString s true ++ more) = some (coerceUTF8 s, more) := by
  rw [appendString_cons]
  simp only [decodeString]
  exact unquoteLoop_appendStringLoop s.length s _ more (Nat.le_refl _) (Nat.le_refl _)

theorem decodeElem_appendString (s : GoString) (more : List Nat) :
    decodeElem (appendString s true ++ more) = some (coerceUTF8 s, more) := by
  have h := decodeString_appendString s more
  rw [appendString_cons] at h ⊢
  simp only [decodeElem]
  exact h

theorem skipSpace_cons (c : Nat) (rest : List Nat) (h : isSpace c = false) :
    skipSpace (c :: rest) = c :: rest := by
  simp [skipSpace, h]

theorem encodeMembers_single (e : GoString × GoString) :
    encodeMembers true [e] = encodeMember true e := by
  simp [encodeMembers]

theorem encodeMembers_cons (e e1 : GoString × GoString) (es : List (GoString × GoString)) :
    encodeMembers true (e :: e1 :: es) =
      encodeMember true e ++ 0x2C :: encodeMembers true (e1 :: es) := by
  simp [encodeMembers]

theorem encodeMembers_head (e : GoString × GoString) (es : List (GoString × GoString)) :
    ∃ tail, encodeMembers true (e :: es) = 0x22 :: tail := by
  cases es with
  | nil => exact ⟨_, by rw [encodeMembers_single]; simp [encodeMember, appendString]; rfl⟩
  | cons e1 es => exact ⟨_, by rw [encodeMembers_cons]; simp [encodeMember, appendString]; rfl⟩

theorem encodeMembers_length (es : List (GoString × GoString)) :
    es.length ≤ (encodeMembers true es).length := by
  induction es with
  | nil => simp
  | cons e es ih =>
    cases es with
    | nil => rw [encodeMembers_single]; simp [encodeMember, appendString]
    | cons e1 es =>
      rw [encodeMembers_cons]
      simp only [List.length_append, List.length_cons] at ih ⊢
      omega

theorem skipSpace_appendString (s : GoString) (more : List Nat) :
    skipSpace (appendString s true ++ more) = appendString s true ++ more := by
  rw [appendString_cons, skipSpace_cons 0x22 _ (by decide)]

theorem encodeMember_append (e : GoString × GoString) (more : List Nat) :
    encodeMember true e ++ more =
      appendString e.1 true ++ 0x3A :: (appendString e.2 true ++ more) := by
  simp [encodeMember]

theorem decodeMembers_step (k v : GoString) (fuel : Nat) (acc : List (GoString × GoString))
    (tail : List Nat) :
    decodeMembers (fuel + 1) (appendString k true ++ 0x3A :: (appendString v true ++ tail)) acc =
      match skipSpace tail with
      | 0x2C :: s4 => decodeMembers fuel (skipSpace s4) (SetMapIndex acc (coerceUTF8 k) (coerceUTF8 v))
      | 0x7D :: s4 => some (SetMapIndex acc (coerceUTF8 k) (coerceUTF8 v), s4)
      | _ => none := by
  rw [decodeMembers, decodeString_appendString k]
  simp only []
  rw [skipSpace_cons 0x3A _ (by decide)]
  simp only []
  rw [skipSpace_appendString, decodeElem_appendString v]

theorem decodeMembers_encodeMembers (es : List (GoString × GoString)) :
    ∀ (e : GoString × GoString) (acc : List (GoString × GoString)) (fuel : Nat) (more : List Nat),
      es.length + 1 ≤ fuel →
      decodeMembers fuel (encodeMembers true (e :: es) ++ 0x7D :: more) acc =
        some (setAll acc (coercePairs (e :: es)), more) := by
  induction es with
  | nil =>
    intro e acc fuel more hf
    cases fuel with
    | zero => simp at hf
    | succ fuel =>
      rw [encodeMembers_single, encodeMember_append, decodeMembers_step,
        skipSpace_cons 0x7D _ (by decide)]
      rfl
  | cons e1 es ih =>
    intro e acc fuel more hf
    cases fuel with
    | zero => simp at hf
    | succ fuel =>
      obtain ⟨tail, htail⟩ := encodeMembers_head e1 es
      have hrec := ih e1 (SetMapIndex acc (coerceUTF8 e.1) (coerceUTF8 e.2)) fuel more
        (by simpa using hf)
      have hskip : skipSpace (encodeMembers true (e1 :: es) ++ 0x7D :: more) =
          encodeMembers true (e1 :: es) ++ 0x7D :: more := by
        rw [htail, List.cons_append, skipSpace_cons 0x22 _ (by decide)]
      rw [encodeMembers_cons, List.append_assoc, encodeMember_append,
        decodeMembers_step, List.cons_append, skipSpace_cons 0x2C _ (by decide)]
      simp only []
      rw [hskip, hrec]
      rfl

theorem setAll_nodup (l : List (GoString × GoString)) :
    ∀ acc : List (GoString × GoString), (∀ x ∈ l, x.1 ∉ acc.map Prod.fst) →
      (l.map Prod.fst).Nodup → setAll acc l = acc ++ l := by
  induction l with
  | nil => intro acc _ _; simp [setAll]
  | cons e l ih =>
    intro acc hacc hnd
    simp only [List.map_cons, List.nodup_cons] at hnd
    have hset : SetMapIndex acc e.1 e.2 = acc ++ [e] := by
      unfold SetMapIndex
      rw [List.filter_eq_self.2]
      intro a ha
      have := hacc e (by simp)
      simp only [ne_eq, decide_not, Bool.not_eq_true', decide_eq_false_iff_not]
      intro h
      exact this (h ▸ List.mem_map_of_mem Prod.fst ha)
    have hstep : setAll acc (e :: l) = setAll (SetMapIndex acc e.1 e.2) l := rfl
    rw [hstep, hset, ih (acc ++ [e]) ?_ hnd.2]
    · simp
    · intro x hx
      simp only [List.map_append, List.map_cons, List.map_nil, List.mem_append,
        List.mem_singleton, not_or]
      refine ⟨hacc x (by simp [hx]), ?_⟩
      intro h
      exact hnd.1 (h ▸ List.mem_map_of_mem Prod.fst hx)

theorem coercePairs_valid (l : List (GoString × GoString))
    (hv : ∀ x ∈ l, ValidString x.1 = true ∧ ValidString x.2 = true) : coercePairs l = l := by
  induction l with
  | nil => rfl
  | cons e l ih =>
    obtain ⟨h1, h2⟩ := hv e (by simp)
    simp only [coercePairs, List.map_cons, coerceUTF8_valid _ h1, coerceUTF8_valid _ h2]
    congr 1
    exact ih fun x hx => hv x (by simp [hx])

theorem Unmarshal_object (s : List Nat) (m : List (GoString × GoString))
    (h : decodeMembers (0x22 :: s).length (0x22 :: s) [] = some (m, [])) :
    Unmarshal (0x7B :: 0x22 :: s) = some (some m) := by
  unfold Unmarshal
  rw [skipSpace_cons 0x7B _ (by decide)]
  simp only []
  rw [skipSpace_cons 0x22 _ (by decide)]
  simp only []
  rw [h]
  simp [skipSpace]

theorem Unmarshal_mapEncoder_any (t : GoMap) :
    Unmarshal (mapEncoder t true) = some (decodedTable t) := by
  cases t with
  | none => decide
  | some es =>
    simp only [mapEncoder, decodedTable, Option.map_some']
    generalize sortEntries es = l
    cases l with
    | nil => decide
    | cons e l =>
      obtain ⟨tail, htail⟩ := encodeMembers_head e l
      have hdec := decodeMembers_encodeMembers l e [] (tail ++ [0x7D]).length.succ []
        (by
          have := encodeMembers_length (e :: l)
          rw [htail] at this
          simp at this ⊢
          omega)
      rw [htail] at hdec
      have hdec1 : decodeMembers (0x22 :: (tail ++ [0x7D])).length (0x22 :: (tail ++ [0x7D])) [] =
          some (setAll [] (coercePairs (e :: l)), []) := hdec
      rw [htail]
      exact Unmarshal_object _ _ hdec1

theorem decodedTable_valid (t : GoMap) (hwf : t.WF)
    (hv : ∀ x ∈ t.entries, ValidString x.1 = true ∧ ValidString x.2 = true) :
    decodedTable t = t.map sortEntries := by
  cases t with
  | none => rfl
  | some es =>
    have hperm := sortEntries_perm es
    have hnd := sortEntries_keys_nodup es hwf
    have hvs : ∀ x ∈ sortEntries es, ValidString x.1 = true ∧ ValidString x.2 = true :=
      fun x hx => hv x (hperm.subset hx)
    simp only [decodedTable, Option.map_some', coercePairs_valid _ hvs,
      setAll_nodup _ [] (by simp) hnd, List.nil_append]

theorem Unmarshal_mapEncoder (t : GoMap) (hwf : t.WF)
    (hv : ∀ x ∈ t.entries, ValidString x.1 = true ∧ ValidString x.2 = true) :
    Unmarshal (mapEncoder t true) = some (t.map sortEntries) := by
  rw [Unmarshal_mapEncoder_any, decodedTable_valid t hwf hv]

theorem lookup_eq_some_iff (l : List (GoString × GoString)) (hnd : (l.map Prod.fst).Nodup)
    (k v : GoString) : l.lookup k = some v ↔ (k, v) ∈ l := by
  induction l with
  | nil => simp
  | cons e l ih =>
    obtain ⟨k1, v1⟩ := e
    simp only [List.map_cons, List.nodup_cons] at hnd
    by_cases hk : k = k1
    · subst hk
      simp only [List.lookup, beq_self_eq_true, Option.some.injEq, List.mem_cons, Prod.mk.injEq,
        true_and]
      constructor
      · exact fun h => Or.inl h.symm
      · rintro (h | h)
        · exact h.symm
        · exact absurd (List.mem_map_of_mem Prod.fst h) hnd.1
    · have hb : (k == k1) = false := by simpa using hk
      simp only [List.lookup, hb, List.mem_cons, Prod.mk.injEq, hk, false_and, false_or]
      exact ih hnd.2

theorem get_eq_of_entries (t1 t2 : GoMap) (h1 : t1.WF) (h2 : t2.WF)
    (h : ∀ e, e ∈ t1.entries ↔ e ∈ t2.entries) (k : GoString) : t1.get k = t2.get k := by
  have n1 : (t1.entries.map Prod.fst).Nodup := h1
  have n2 : (t2.entries.map Prod.fst).Nodup := h2
  apply Option.ext
  intro v
  unfold GoMap.get
  rw [Option.mem_def, Option.mem_def, lookup_eq_some_iff _ n1, lookup_eq_some_iff _ n2]
  exact h (k, v)

theorem appendStringLoop_fuel (escapeHTML : Bool) (f1 : Nat) :
    ∀ (f2 : Nat) (s : GoString), s.length ≤ f1 → s.length ≤ f2 →
      appendStringLoop escapeHTML f1 s = appendStringLoop escapeHTML f2 s := by
  induction f1 with
  | zero =>
    intro f2 s h1 _
    cases s with
    | nil => cases f2 <;> rfl
    | cons b rest => simp at h1
  | succ f1 ih =>
    intro f2 s h1 h2
    cases s with
    | nil => cases f2 <;> rfl
    | cons b rest =>
      cases f2 with
      | zero => simp at h2
      | succ f2 =>
        have hr1 : rest.length ≤ f1 := by simpa using h1
        have hr2 : rest.length ≤ f2 := by simpa using h2
        have hd : ∀ k, appendStringLoop escapeHTML f1 (rest.drop k) =
            appendStringLoop escapeHTML f2 (rest.drop k) := fun k =>
          ih f2 (rest.drop k) (by simp; omega) (by simp; omega)
        simp only [appendStringLoop, ih f2 rest hr1 hr2, hd]

theorem quoteLoop_fuel (table : Nat → Bool) (f1 : Nat) :
    ∀ (f2 : Nat) (s : GoString), s.length ≤ f1 → s.length ≤ f2 →
      quoteLoop table f1 s = quoteLoop table f2 s := by
  induction f1 with
  | zero =>
    intro f2 s h1 _
    cases s with
    | nil => cases f2 <;> rfl
    | cons b rest => simp at h1
  | succ f1 ih =>
    intro f2 s h1 h2
    cases s with
    | nil => cases f2 <;> rfl
    | cons b rest =>
      cases f2 with
      | zero => simp at h2
      | succ f2 =>
        have hr1 : rest.length ≤ f1 := by simpa using h1
        have hr2 : rest.length ≤ f2 := by simpa using h2
        have hd : ∀ k, quoteLoop table f1 (rest.drop k) = quoteLoop table f2 (rest.drop k) :=
          fun k => ih f2 (rest.drop k) (by simp; omega) (by simp; omega)
        simp only [quoteLoop, ih f2 rest hr1 hr2, hd]

/-- C5 (amended): for a table whose keys and messages are valid UTF-8, the
`--config-json` argument of `Check` is the text `null` when the table is nil
and otherwise the text of an object between braces (the empty table included),
and decoding it as a JSON map of strings gives a table that is nil exactly when
the table is, with the same entries and the same message for every key. -/
theorem Check_config_roundtrip {Cmd : Type} (env : Env Cmd)
    (parse : GoString → GoString → Issue) (c : nobadfuncsCheck) (pkgPaths : List GoString)
    (pkgDir : GoString) (hwf : c.BadFuncs.WF)
    (hv : ∀ x ∈ c.BadFuncs.entries, ValidString x.1 = true ∧ ValidString x.2 = true) :
    ∃ J t, checkCmdArgs (Check env parse c pkgPaths pkgDir) =
        [(lit "nobadfuncs", lit "--config-json" :: J :: pkgPaths)] ∧
      Unmarshal J = some t ∧
      (c.BadFuncs = none → J = lit "null" ∧ t = none) ∧
      (c.BadFuncs ≠ none → J.head? = some 0x7B ∧ J.getLast? = some 0x7D ∧ t ≠ none) ∧
      t.WF ∧
      (∀ e, e ∈ t.entries ↔ e ∈ c.BadFuncs.entries) ∧
      (∀ k, t.get k = c.BadFuncs.get k) := by
  have hargs := checkCmdArgs_Check env parse c pkgPaths pkgDir
  generalize hJ1 : mapEncoder c.BadFuncs true = J at hargs
  replace hJ1 := hJ1.symm
  have hdec := Unmarshal_mapEncoder c.BadFuncs hwf hv
  have hwf1 : GoMap.WF (c.BadFuncs.map sortEntries) := by
    cases hb : c.BadFuncs with
    | none => simp [GoMap.WF, GoMap.entries]
    | some es0 =>
      rw [hb] at hwf
      exact sortEntries_keys_nodup es0 hwf
  have hent : ∀ e, e ∈ GoMap.entries (c.BadFuncs.map sortEntries) ↔ e ∈ c.BadFuncs.entries := by
    intro e
    cases hb : c.BadFuncs with
    | none => simp [GoMap.entries]
    | some es0 => simpa [GoMap.entries] using (sortEntries_perm es0).mem_iff
  refine ⟨J, c.BadFuncs.map sortEntries, hargs, by rw [hJ1]; exact hdec, ?_, ?_,
    hwf1, hent, fun k => get_eq_of_entries _ _ hwf1 hwf hent k⟩
  · intro hb
    rw [hJ1, hb]
    exact ⟨rfl, rfl⟩
  · intro hb
    cases hb1 : c.BadFuncs with
    | none => exact absurd hb1 hb
    | some es0 =>
      rw [hJ1, hb1]
      refine ⟨by simp [mapEncoder], ?_, by simp⟩
      exact List.getLast?_concat (0x7B :: encodeMembers true (sortEntries es0))

/-- Witness of C5 (amended): the table of the integration test. -/
theorem Check_config_roundtrip_witness :
    ∃ J t, checkCmdArgs (Check noCmdEnv NewIssueFromLine
        { BadFuncs := some [(lit "func os.Exit(int)", lit "do not call os.Exit directly")] }
        [lit "./..."] (lit ".")) =
        [(lit "nobadfuncs", lit "--config-json" :: J :: [lit "./..."])] ∧
      Unmarshal J = some t ∧
      ∀ k, t.get k =
        GoMap.get (some [(lit "func os.Exit(int)", lit "do not call os.Exit directly")]) k := by
  obtain ⟨J, t, h1, h2, _, _, _, _, h3⟩ := Check_config_roundtrip noCmdEnv NewIssueFromLine
    { BadFuncs := some [(lit "func os.Exit(int)", lit "do not call os.Exit directly")] }
    [lit "./..."] (lit ".") (by decide) (by decide)
  exact ⟨J, t, h1, h2, h3⟩

/-- Counterexample to C5: for the nil table the argument is the text `null`,
which is no object and decodes to the nil map; and for the key made of the
byte `0xFF`, which is not valid UTF-8, the argument decodes to a table with
another key. -/
theorem Check_nil_table_counterexample :
    checkCmdArgs (Check noCmdEnv NewIssueFromLine { BadFuncs := none } [lit "./..."] (lit ".")) =
      [(lit "nobadfuncs", [lit "--config-json", lit "null", lit "./..."])] ∧
    (lit "null").head? ≠ some 0x7B ∧
    Unmarshal (lit "null") = some none ∧
    checkCmdArgs (Check noCmdEnv NewIssueFromLine { BadFuncs := some [([0xFF], lit "m")] }
        [lit "./..."] (lit ".")) =
      [(lit "nobadfuncs", [lit "--config-json", lit "\x7b\"\\ufffd\":\"m\"\x7d", lit "./..."])] ∧
    Unmarshal (lit "\x7b\"\\ufffd\":\"m\"\x7d") = some (some [([0xEF, 0xBF, 0xBD], lit "m")]) := by
  refine ⟨by decide, by decide, by decide, by decide, by decide⟩

theorem MarshalValue_failing_paths :
    MarshalValue (.Map .Bool .String) (0, some []) =
      .error (.UnsupportedTypeError (.Map .Bool .String)) ∧
    MarshalValue (.Map .String .Chan) (0, some [(lit "a", ())]) =
      .error (.UnsupportedTypeError .Chan) ∧
    MarshalValue (.Map .String .Number) (0, some [(lit "a", lit "1x")]) =
      .error (.invalidNumber (lit "1x")) ∧
    typeEncoder (.Map .String .String) true { ptrLevel := 1000, ptrSeen := [7] } (7, some []) =
      .error (.cycle (.Map .String .String)) :=
  ⟨rfl, rfl, rfl, rfl⟩

/-- C10: for every table of type `map[string]string`, whatever the bytes of its
keys and values and whatever its address, nil included, the encoder of
`json.Marshal` reaches none of its failing paths (unsupported type, cycle,
invalid number, key name) and returns the encoding; so `Check` writes no
encoding error and always goes on to build the check command. -/
theorem Check_marshal_succeeds {Cmd : Type} (env : Env Cmd) (parse : GoString → GoString → Issue)
    (c : nobadfuncsCheck) (pkgPaths : List GoString) (pkgDir : GoString) :
    (∀ p : Nat, MarshalValue (.Map .String .String) (p, c.BadFuncs) =
      .ok (mapEncoder c.BadFuncs true)) ∧
    (∃ J, Marshal c.BadFuncs = .ok J) ∧
    writtenErrors (Check env parse c pkgPaths pkgDir) = [] ∧
    (checkCmdArgs (Check env parse c pkgPaths pkgDir)).length = 1 := by
  refine ⟨fun p => typeEncoder_string_map true newEncodeState p c.BadFuncs (by decide),
    ⟨_, Marshal_eq c.BadFuncs⟩, ?_, ?_⟩ <;>
  · simp only [Check, Marshal_eq]
    rcases h : env.AmalgomatedCheckCmd TypeName
      ([lit "--config-json", mapEncoder c.BadFuncs true] ++ pkgPaths) with ⟨cmd, wd⟩
    cases cmd <;> simp [checkCmdArgs, writtenErrors]

end Nobadfuncs
